import Mathlib

/-!
Verification development for the ConstraintSolverJs repository: a 2D
rigid-body constraint solver.  The TypeScript sources are shallowly embedded
over an arbitrary linear ordered field K (JavaScript floats idealised as
exact field arithmetic).  External collaborators that the repository only
consumes (Math.cos / Math.sin, the mathjs matrix inverse, and the fsolve-js
numerical Differentiator) are passed as explicit function parameters of the
embedded definitions, mirroring the import boundary of the sources.
-/

set_option linter.unusedSectionVars false

namespace CSolver

/-- Value type of vector-utils.ts: a plain record with x and y fields. -/
@[ext]
structure Vec (K : Type) where
  x : K
  y : K
  deriving Repr, DecidableEq

variable {K : Type} [LinearOrderedField K]

/-- vector-utils.ts rotateVector.  The parameters cosF and sinF stand for the
external Math.cos and Math.sin; theorems instantiate them with Real.cos and
Real.sin. -/
def rotateVector (cosF sinF : K → K) (vector : Vec K) (angle : K) : Vec K :=
  ⟨cosF angle * vector.x - sinF angle * vector.y,
   sinF angle * vector.x + cosF angle * vector.y⟩

/-- vector-utils.ts addVectors. -/
def addVectors (vectorA vectorB : Vec K) : Vec K :=
  ⟨vectorA.x + vectorB.x, vectorA.y + vectorB.y⟩

/-- vector-utils.ts substractVectors (vectorA - vectorB). -/
def substractVectors (vectorA vectorB : Vec K) : Vec K :=
  ⟨vectorA.x - vectorB.x, vectorA.y - vectorB.y⟩

/-- cord-sys-utils.ts globalToRelativePos: translate a global position into a
relative coordinate system given by origin and rotation. -/
def globalToRelativePos (cosF sinF : K → K) (globalPos relCordOrigin : Vec K)
    (relCordRot : K) : Vec K :=
  rotateVector cosF sinF (substractVectors globalPos relCordOrigin) (-relCordRot)

/-- cord-sys-utils.ts relativeToGlobalPos: translate a relative position into
the global coordinate system. -/
def relativeToGlobalPos (cosF sinF : K → K) (relPos relCordOrigin : Vec K)
    (relCordRot : K) : Vec K :=
  addVectors (rotateVector cosF sinF relPos relCordRot) relCordOrigin

/-- body.ts Body: identity plus mutable pose (x, y, theta).  Mutation is
modelled by rebuilding the record. -/
structure Body (K : Type) where
  id : String
  x : K
  y : K
  theta : K
  deriving Repr, DecidableEq

/-- The error classes the sources throw: plain Error, WorldSetupError
(world.ts, carries the accumulated message list) and UnableToSolveError
(world.ts, carries the solver message passed to the constructor). -/
inductive JsError where
  | error (message : String)
  | worldSetupError (errors : List String)
  | unableToSolveError (solverMessage : String)
  deriving Repr, DecidableEq

/-- The name field of the corresponding JavaScript error class. -/
def JsError.kindName : JsError → String
  | .error _ => "Error"
  | .worldSetupError _ => "WorldSetupError"
  | .unableToSolveError _ => "UnableToSolveError"

/-- fixed-constraint.ts FixedConstraint: stored target pose and body
reference. -/
structure FixedConstraint (K : Type) where
  x : K
  y : K
  theta : K
  body : Body K
  deriving Repr, DecidableEq

/-- fixed-constraint.ts constructor: captures the body pose at construction
time as the fixed target. -/
def FixedConstraint.make (body : Body K) : FixedConstraint K :=
  ⟨body.x, body.y, body.theta, body⟩

/-- fixed-constraint.ts f: the three raw pose differences. -/
def FixedConstraint.f (fc : FixedConstraint K) (x y theta : K) : K × K × K :=
  (x - fc.x, y - fc.y, theta - fc.theta)

/-- rot-constraint.ts RotConstraint: two bodies with anchors fixed in each
local frame. -/
structure RotConstraint (K : Type) where
  bodyA : Body K
  anchorA : Vec K
  bodyB : Body K
  anchorB : Vec K
  deriving Repr, DecidableEq

/-- rot-constraint.ts constructor: throws when both bodies share an id. -/
def RotConstraint.make (bodyA : Body K) (anchorA : Vec K) (bodyB : Body K)
    (anchorB : Vec K) : Except JsError (RotConstraint K) :=
  if bodyA.id = bodyB.id then
    .error (.error ("A body cannot be constraint to itself. Body id: " ++ bodyA.id))
  else
    .ok ⟨bodyA, anchorA, bodyB, anchorB⟩

/-- rot-constraint.ts f: both anchors projected to the global frame and
subtracted componentwise. -/
def RotConstraint.f (cosF sinF : K → K) (rc : RotConstraint K)
    (xa ya thetaA xb yb thetaB : K) : K × K :=
  let cmA : Vec K := ⟨xa, ya⟩
  let cmB : Vec K := ⟨xb, yb⟩
  let anchAglobal := relativeToGlobalPos cosF sinF rc.anchorA cmA thetaA
  let anchBglobal := relativeToGlobalPos cosF sinF rc.anchorB cmB thetaB
  let resultVec := substractVectors anchAglobal anchBglobal
  (resultVec.x, resultVec.y)

/-- C9: a FixedConstraint captures the body pose at construction time and its
residual is the raw difference (x - target.x, y - target.y, theta -
target.theta), not the sign-preserving 5th-power variant. -/
theorem fixedConstraint_capture_and_raw_difference (body : Body K) (x y theta : K) :
    (FixedConstraint.make body).f x y theta =
      (x - body.x, y - body.y, theta - body.theta) := by
  rfl

/-- C10: frame transforms round-trip: converting a local point to the global
frame and back with the same origin and rotation is the identity, over exact
real arithmetic with the genuine trigonometric functions. -/
theorem globalToRelative_relativeToGlobal_roundtrip (p o : Vec ℝ) (r : ℝ) :
    globalToRelativePos Real.cos Real.sin
      (relativeToGlobalPos Real.cos Real.sin p o r) o r = p := by
  have h := Real.sin_sq_add_cos_sq r
  ext
  · simp only [globalToRelativePos, relativeToGlobalPos, rotateVector,
      addVectors, substractVectors, Real.cos_neg, Real.sin_neg]
    linear_combination p.x * h
  · simp only [globalToRelativePos, relativeToGlobalPos, rotateVector,
      addVectors, substractVectors, Real.cos_neg, Real.sin_neg]
    linear_combination p.y * h

/-- mathjs DenseMatrix.set on a column vector: writing past the end resizes
the vector, filling the new entries with 0 (the mathjs default fill). -/
def vset (v : List K) (i : ℕ) (val : K) : List K :=
  if i < v.length then v.set i val
  else (v ++ List.replicate (i - v.length) 0) ++ [val]

/-- The 3-slot index record world.ts keeps per body id (fields x, y, theta of
the indices dictionary). -/
structure Idx3 where
  x : ℕ
  y : ℕ
  theta : ℕ
  deriving Repr, DecidableEq

/-- JavaScript dictionary lookup on a key-ordered association list. -/
def dictLookup {α : Type} (d : List (String × α)) (key : String) : Option α :=
  (d.find? (fun p => p.1 == key)).map (·.2)

/-- world.ts BodyPosition record. -/
structure BodyPosition (K : Type) where
  x : K
  y : K
  theta : K
  deriving Repr, DecidableEq

/-- world.ts getBodyPosition: each component is read from the solver vector
xVec when its assigned index is within range, and from the stored x0 vector
otherwise (the JavaScript test is index > xVec.length - 1).  The source
assumes the body id is present in the indices dictionary; a missing id
defaults to slot 0 here where the source would crash. -/
def getBodyPosition (indices : List (String × Idx3)) (x0 xVec : List K)
    (body : Body K) : BodyPosition K :=
  let idx := (dictLookup indices body.id).getD ⟨0, 0, 0⟩
  { x := if xVec.length ≤ idx.x then x0.getD idx.x 0 else xVec.getD idx.x 0
    y := if xVec.length ≤ idx.y then x0.getD idx.y 0 else xVec.getD idx.y 0
    theta := if xVec.length ≤ idx.theta then x0.getD idx.theta 0
             else xVec.getD idx.theta 0 }

/-- world.ts rotConstraintF: read both body poses and apply the constraint
formula. -/
def rotConstraintF (cosF sinF : K → K) (indices : List (String × Idx3))
    (x0 xVec : List K) (rc : RotConstraint K) : K × K :=
  let bodyAPos := getBodyPosition indices x0 xVec rc.bodyA
  let bodyBPos := getBodyPosition indices x0 xVec rc.bodyB
  rc.f cosF sinF bodyAPos.x bodyAPos.y bodyAPos.theta bodyBPos.x bodyBPos.y bodyBPos.theta

/-- world.ts fixConstraintF. -/
def fixConstraintF (indices : List (String × Idx3)) (x0 xVec : List K)
    (fc : FixedConstraint K) : K × K × K :=
  let bodyPos := getBodyPosition indices x0 xVec fc.body
  fc.f bodyPos.x bodyPos.y bodyPos.theta

/-- A run of consecutive y.set writes advancing the write index i (the i++
pattern of world.ts f). -/
def writeSeq (acc : List K × ℕ) (vals : List K) : List K × ℕ :=
  vals.foldl (fun a v => (vset a.1 a.2 v, a.2 + 1)) acc

/-- world.ts f, the residual function: a vector allocated with
2*nRotational + 2*nFixed zero slots (the length the source computes), then
the 2 rotational scalars per rotational constraint and 3 scalars per fixed
constraint written consecutively; mathjs auto-resizes on out-of-range
writes, which vset reproduces. -/
def worldF (cosF sinF : K → K) (rotConstraints : List (RotConstraint K))
    (fixConstraints : List (FixedConstraint K)) (indices : List (String × Idx3))
    (x0 xVec : List K) : List K :=
  let n := rotConstraints.length * 2 + fixConstraints.length * 2
  let y0 : List K := List.replicate n 0
  let s1 := rotConstraints.foldl
    (fun acc rc =>
      let res := rotConstraintF cosF sinF indices x0 xVec rc
      writeSeq acc [res.1, res.2]) (y0, 0)
  let s2 := fixConstraints.foldl
    (fun acc fc =>
      let res := fixConstraintF indices x0 xVec fc
      writeSeq acc [res.1, res.2.1, res.2.2]) s1
  s2.1

/-- The rotational block of the residual, in constraint order. -/
def rotBlock (cosF sinF : K → K) (rotConstraints : List (RotConstraint K))
    (indices : List (String × Idx3)) (x0 xVec : List K) : List K :=
  rotConstraints.flatMap (fun rc =>
    let res := rotConstraintF cosF sinF indices x0 xVec rc
    [res.1, res.2])

/-- The fixed block of the residual, in constraint order. -/
def fixBlock (fixConstraints : List (FixedConstraint K))
    (indices : List (String × Idx3)) (x0 xVec : List K) : List K :=
  fixConstraints.flatMap (fun fc =>
    let res := fixConstraintF indices x0 xVec fc
    [res.1, res.2.1, res.2.2])

theorem vset_frontier (w : List K) (k : ℕ) (v : K) :
    vset (w ++ List.replicate k 0) w.length v =
      (w ++ [v]) ++ List.replicate (k - 1) 0 := by
  cases k with
  | zero =>
    simp [vset]
  | succ k =>
    have hlt : w.length < (w ++ List.replicate (k + 1) (0 : K)).length := by
      simp
    simp only [vset, if_pos hlt]
    rw [List.set_append]
    simp [List.replicate_succ]

theorem writeSeq_frontier (vals w : List K) (k : ℕ) :
    writeSeq (w ++ List.replicate k 0, w.length) vals =
      ((w ++ vals) ++ List.replicate (k - vals.length) 0, w.length + vals.length) := by
  induction vals generalizing w k with
  | nil => simp [writeSeq]
  | cons v vs ih =>
    have step : (vset (w ++ List.replicate k 0) w.length v, w.length + 1) =
        ((w ++ [v]) ++ List.replicate (k - 1) 0, (w ++ [v]).length) := by
      rw [vset_frontier]
      simp
    calc writeSeq (w ++ List.replicate k 0, w.length) (v :: vs)
        = writeSeq (vset (w ++ List.replicate k 0) w.length v, w.length + 1) vs := rfl
      _ = writeSeq ((w ++ [v]) ++ List.replicate (k - 1) 0, (w ++ [v]).length) vs := by
            rw [step]
      _ = (((w ++ [v]) ++ vs) ++ List.replicate ((k - 1) - vs.length) 0,
            (w ++ [v]).length + vs.length) := ih _ _
      _ = ((w ++ v :: vs) ++ List.replicate (k - (vs.length + 1)) 0,
            w.length + (vs.length + 1)) := by
            rw [Nat.sub_sub, Nat.add_comm 1 vs.length]
            simp
            omega

theorem foldl_writeSeq_frontier {α : Type} (l : List α) (g : α → List K)
    (w : List K) (k : ℕ) :
    l.foldl (fun acc a => writeSeq acc (g a)) (w ++ List.replicate k 0, w.length) =
      ((w ++ l.flatMap g) ++ List.replicate (k - (l.flatMap g).length) 0,
        w.length + (l.flatMap g).length) := by
  induction l generalizing w k with
  | nil => simp
  | cons a l ih =>
    have h1 : List.foldl (fun acc a => writeSeq acc (g a))
        (w ++ List.replicate k 0, w.length) (a :: l) =
        List.foldl (fun acc a => writeSeq acc (g a))
          ((w ++ g a) ++ List.replicate (k - (g a).length) 0, (w ++ g a).length) l := by
      simp only [List.foldl_cons, writeSeq_frontier]
      simp
    rw [h1, ih]
    simp [List.flatMap_cons, Nat.sub_sub, List.append_assoc, Nat.add_assoc]

/-- The residual vector equals the rotational block followed by the fixed
block: the allocation of 2*r + 2*f slots is exceeded by the 2*r + 3*f
consecutive writes and mathjs growth makes the result exactly the
concatenation. -/
theorem worldF_eq_blocks (cosF sinF : K → K) (rcs : List (RotConstraint K))
    (fcs : List (FixedConstraint K)) (indices : List (String × Idx3))
    (x0 xVec : List K) :
    worldF cosF sinF rcs fcs indices x0 xVec =
      rotBlock cosF sinF rcs indices x0 xVec ++ fixBlock fcs indices x0 xVec := by
  unfold worldF
  dsimp only
  have hR : (rotBlock cosF sinF rcs indices x0 xVec).length = 2 * rcs.length := by
    unfold rotBlock
    rw [List.length_flatMap]
    induction rcs with
    | nil => simp
    | cons rc l ih => simp_all [Nat.mul_add, Nat.add_comm]
  have hF : (fixBlock fcs indices x0 xVec).length = 3 * fcs.length := by
    unfold fixBlock
    rw [List.length_flatMap]
    induction fcs with
    | nil => simp
    | cons fc l ih => simp_all [Nat.mul_add, Nat.add_comm]
  have h0 : (List.replicate (rcs.length * 2 + fcs.length * 2) (0 : K), 0) =
      (([] : List K) ++ List.replicate (rcs.length * 2 + fcs.length * 2) (0 : K),
        ([] : List K).length) := by simp
  rw [h0]
  rw [show (fun (acc : List K × ℕ) rc =>
        let res := rotConstraintF cosF sinF indices x0 xVec rc
        writeSeq acc [res.1, res.2]) = (fun acc rc => writeSeq acc
          ((fun rc => let res := rotConstraintF cosF sinF indices x0 xVec rc
            [res.1, res.2]) rc)) from rfl]
  rw [foldl_writeSeq_frontier]
  simp only [List.nil_append, List.length_nil, Nat.zero_add]
  have hRB : List.flatMap rcs (fun rc =>
      let res := rotConstraintF cosF sinF indices x0 xVec rc
      [res.1, res.2]) = rotBlock cosF sinF rcs indices x0 xVec := rfl
  rw [hRB, hR]
  have h2 : (rotBlock cosF sinF rcs indices x0 xVec ++
      List.replicate (rcs.length * 2 + fcs.length * 2 - 2 * rcs.length) 0,
      2 * rcs.length) =
      (rotBlock cosF sinF rcs indices x0 xVec ++
        List.replicate (2 * fcs.length) 0,
        (rotBlock cosF sinF rcs indices x0 xVec).length) := by
    rw [hR]
    have harith : rcs.length * 2 + fcs.length * 2 - 2 * rcs.length =
        2 * fcs.length := by omega
    rw [harith]
  rw [h2]
  rw [show (fun (acc : List K × ℕ) fc =>
        let res := fixConstraintF indices x0 xVec fc
        writeSeq acc [res.1, res.2.1, res.2.2]) = (fun acc fc => writeSeq acc
          ((fun fc => let res := fixConstraintF indices x0 xVec fc
            [res.1, res.2.1, res.2.2]) fc)) from rfl]
  rw [foldl_writeSeq_frontier]
  have hFB : List.flatMap fcs (fun fc =>
      let res := fixConstraintF indices x0 xVec fc
      [res.1, res.2.1, res.2.2]) = fixBlock fcs indices x0 xVec := rfl
  rw [hFB, hF]
  have harith2 : 2 * fcs.length - 3 * fcs.length = 0 := by omega
  rw [harith2]
  simp

/-- C2: the residual function returns exactly 2*nRotational + 3*nFixed
scalars, laid out as the 2-scalar rotational results in constraint order
followed by the 3-scalar fixed results in constraint order, for every state
vector and every index assignment. -/
theorem world_residual_layout (cosF sinF : K → K) (rcs : List (RotConstraint K))
    (fcs : List (FixedConstraint K)) (indices : List (String × Idx3))
    (x0 xVec : List K) :
    worldF cosF sinF rcs fcs indices x0 xVec =
      rotBlock cosF sinF rcs indices x0 xVec ++ fixBlock fcs indices x0 xVec ∧
    (worldF cosF sinF rcs fcs indices x0 xVec).length =
      2 * rcs.length + 3 * fcs.length := by
  refine ⟨worldF_eq_blocks cosF sinF rcs fcs indices x0 xVec, ?_⟩
  rw [worldF_eq_blocks]
  rw [List.length_append]
  have hR : (rotBlock cosF sinF rcs indices x0 xVec).length = 2 * rcs.length := by
    unfold rotBlock
    rw [List.length_flatMap]
    induction rcs with
    | nil => simp
    | cons rc l ih => simp_all [Nat.mul_add, Nat.add_comm]
  have hF : (fixBlock fcs indices x0 xVec).length = 3 * fcs.length := by
    unfold fixBlock
    rw [List.length_flatMap]
    induction fcs with
    | nil => simp
    | cons fc l ih => simp_all [Nat.mul_add, Nat.add_comm]
  rw [hR, hF]

/-- JavaScript object assignment bodies[id] = body: when the key exists its
value is replaced in place (key order kept), otherwise the key is appended. -/
def upsertBody (reg : List (String × Body K)) (body : Body K) :
    List (String × Body K) :=
  if (reg.find? (fun p => p.1 == body.id)).isSome then
    reg.map (fun p => if p.1 == body.id then (p.1, body) else p)
  else reg ++ [(body.id, body)]

/-- The error text world.ts loadBodies pushes for a self-referencing
rotational constraint. -/
def selfRefMsg (id : String) : String :=
  "A body can't have a rotational constraint with it self. Body id: " ++ id

/-- The error text world.ts validateDegsOfFreedom pushes for a negative
degrees-of-freedom count. -/
def overConstrainedMsg (dof : ℤ) : String :=
  "Unsolvable system: system is over constrained (degrees of freedom: " ++
    toString dof ++ ")"

/-- world.ts loadBodies: visit every rotational constraint, accumulating a
self-reference error when its bodies share an id and inserting both bodies,
then insert every fixed constraint body.  Returns the registry (id-keyed,
insertion ordered) and the accumulated error list. -/
def loadBodies (rcs : List (RotConstraint K)) (fcs : List (FixedConstraint K)) :
    List (String × Body K) × List String :=
  let s1 := rcs.foldl
    (fun (acc : List (String × Body K) × List String) rc =>
      let errs := if rc.bodyA.id = rc.bodyB.id then
          acc.2 ++ [selfRefMsg rc.bodyA.id] else acc.2
      (upsertBody (upsertBody acc.1 rc.bodyA) rc.bodyB, errs))
    ([], [])
  fcs.foldl (fun acc fc => (upsertBody acc.1 fc.body, acc.2)) s1

/-- world.ts degOfFreedom: 3*b - 2*r - 3*f. -/
def degOfFreedom (b r f : ℤ) : ℤ :=
  3 * b - 2 * r - 3 * f

/-- The degrees-of-freedom value the World constructor computes: bodies are
counted through the deduplicating registry. -/
def World.dofOf (rcs : List (RotConstraint K)) (fcs : List (FixedConstraint K)) :
    ℤ :=
  degOfFreedom ((loadBodies rcs fcs).1.length : ℤ) (rcs.length : ℤ) (fcs.length : ℤ)

/-- world.ts World state after a successful construction. -/
structure World (K : Type) where
  rotConstraints : List (RotConstraint K)
  fixConstraints : List (FixedConstraint K)
  bodies : List (String × Body K)
  bodiesLst : List (Body K)
  x0 : List K
  dof : ℤ
  deriving Repr

/-- world.ts constructor: load the registry, validate the degrees of
freedom, and throw WorldSetupError with the full accumulated error list when
any error was recorded. -/
def World.make (rcs : List (RotConstraint K)) (fcs : List (FixedConstraint K)) :
    Except JsError (World K) :=
  let lb := loadBodies rcs fcs
  let bodiesLst := lb.1.map (·.2)
  let x0 : List K := List.replicate (bodiesLst.length * 3) 0
  let dof := World.dofOf rcs fcs
  let errs := lb.2 ++ (if dof < 0 then [overConstrainedMsg dof] else [])
  if errs.isEmpty then .ok ⟨rcs, fcs, lb.1, bodiesLst, x0, dof⟩
  else .error (.worldSetupError errs)

/-- Every body reference of the constraint lists, in the visitation order of
loadBodies. -/
def allBodies (rcs : List (RotConstraint K)) (fcs : List (FixedConstraint K)) :
    List (Body K) :=
  rcs.flatMap (fun rc => [rc.bodyA, rc.bodyB]) ++ fcs.map (·.body)

/-- Every referenced body id, in visitation order. -/
def allBodyIds (rcs : List (RotConstraint K)) (fcs : List (FixedConstraint K)) :
    List String :=
  (allBodies rcs fcs).map (·.id)

theorem keys_upsertBody (reg : List (String × Body K)) (b : Body K) :
    (upsertBody reg b).map (·.1) =
      if b.id ∈ reg.map (·.1) then reg.map (·.1) else reg.map (·.1) ++ [b.id] := by
  unfold upsertBody
  by_cases h : b.id ∈ reg.map (·.1)
  · have hfind : (reg.find? (fun p => p.1 == b.id)).isSome := by
      rw [List.find?_isSome]
      rcases List.mem_map.mp h with ⟨p, hp, hid⟩
      exact ⟨p, hp, by simp [hid]⟩
    rw [if_pos hfind, if_pos h, List.map_map]
    apply List.map_congr_left
    intro p _
    by_cases hp : p.1 = b.id
    · simp [hp]
    · simp [hp]
  · have hfind : ¬ (reg.find? (fun p => p.1 == b.id)).isSome := by
      rw [List.find?_isSome]
      rintro ⟨p, hp, hid⟩
      exact h (List.mem_map.mpr ⟨p, hp, by simpa using hid⟩)
    rw [if_neg hfind, if_neg h, List.map_append]
    rfl

theorem keys_foldl_upsertBody (bs : List (Body K)) (reg : List (String × Body K))
    (hnd : (reg.map (·.1)).Nodup) :
    ((bs.foldl upsertBody reg).map (·.1)).Nodup ∧
      ((bs.foldl upsertBody reg).map (·.1)).toFinset =
        (reg.map (·.1)).toFinset ∪ (bs.map (·.id)).toFinset := by
  induction bs generalizing reg with
  | nil => simp [hnd]
  | cons b bs ih =>
    simp only [List.foldl_cons]
    have hk := keys_upsertBody reg b
    by_cases h : b.id ∈ reg.map (·.1)
    · have hnd' : ((upsertBody reg b).map (·.1)).Nodup := by
        rw [hk, if_pos h]; exact hnd
      have := ih (upsertBody reg b) hnd'
      refine ⟨this.1, ?_⟩
      rw [this.2, hk, if_pos h]
      have hins : b.id ∈ (reg.map (·.1)).toFinset := List.mem_toFinset.mpr h
      simp only [List.map_cons, List.toFinset_cons]
      rw [Finset.insert_eq, ← Finset.union_assoc,
        Finset.union_eq_left.mpr (Finset.singleton_subset_iff.mpr hins)]
    · have hnd' : ((upsertBody reg b).map (·.1)).Nodup := by
        rw [hk, if_neg h]
        rw [List.nodup_append]
        exact ⟨hnd, List.nodup_singleton _, by simpa using h⟩
      have := ih (upsertBody reg b) hnd'
      refine ⟨this.1, ?_⟩
      rw [this.2, hk, if_neg h]
      simp only [List.toFinset_append, List.map_cons, List.toFinset_cons,
        List.toFinset_nil, insert_emptyc_eq]
      rw [Finset.insert_eq, ← Finset.union_assoc]

theorem loadBodies_registry_eq (rcs : List (RotConstraint K))
    (fcs : List (FixedConstraint K)) :
    loadBodies rcs fcs = ((allBodies rcs fcs).foldl upsertBody [],
      (rcs.filter (fun rc => rc.bodyA.id == rc.bodyB.id)).map
        (fun rc => selfRefMsg rc.bodyA.id)) := by
  have step1 : ∀ (l : List (RotConstraint K)) (acc : List (String × Body K) × List String),
      l.foldl (fun (acc : List (String × Body K) × List String) rc =>
        let errs := if rc.bodyA.id = rc.bodyB.id then
            acc.2 ++ [selfRefMsg rc.bodyA.id] else acc.2
        (upsertBody (upsertBody acc.1 rc.bodyA) rc.bodyB, errs)) acc =
      ((l.flatMap (fun rc => [rc.bodyA, rc.bodyB])).foldl upsertBody acc.1,
        acc.2 ++ (l.filter (fun rc => rc.bodyA.id == rc.bodyB.id)).map
          (fun rc => selfRefMsg rc.bodyA.id)) := by
    intro l
    induction l with
    | nil => intro acc; simp
    | cons rc l ih =>
      intro acc
      rw [List.foldl_cons, ih]
      by_cases h : rc.bodyA.id = rc.bodyB.id
      · simp [h, List.filter_cons, List.flatMap_cons]
      · simp [h, List.filter_cons, List.flatMap_cons]
  have step2 : ∀ (l : List (FixedConstraint K)) (acc : List (String × Body K) × List String),
      l.foldl (fun (acc : List (String × Body K) × List String) fc =>
        (upsertBody acc.1 fc.body, acc.2)) acc =
      ((l.map (·.body)).foldl upsertBody acc.1, acc.2) := by
    intro l
    induction l with
    | nil => intro acc; simp
    | cons fc l ih => intro acc; rw [List.foldl_cons, ih]; simp
  unfold loadBodies
  rw [step1, step2]
  unfold allBodies
  rw [List.foldl_append]
  simp

theorem loadBodies_registry_length (rcs : List (RotConstraint K))
    (fcs : List (FixedConstraint K)) :
    (loadBodies rcs fcs).1.length = (allBodyIds rcs fcs).dedup.length := by
  rw [loadBodies_registry_eq]
  have h := keys_foldl_upsertBody (allBodies rcs fcs) ([] : List (String × Body K))
    (by simp)
  have hlen : ((allBodies rcs fcs).foldl upsertBody []).length =
      (((allBodies rcs fcs).foldl upsertBody []).map (·.1)).length := by
    rw [List.length_map]
  rw [hlen]
  have hkl := List.toFinset_card_of_nodup h.1
  have hfin : (((allBodies rcs fcs).foldl upsertBody []).map (·.1)).toFinset =
      ((allBodies rcs fcs).map (·.id)).toFinset := by
    rw [h.2]; simp
  rw [← hkl, hfin]
  rw [List.card_toFinset]
  rfl

/-- C4: the degrees-of-freedom value is 3*nBodies - 2*nRotational - 3*nFixed
with nBodies the number of distinct referenced body ids, and a negative
value always makes World construction fail with a WorldSetupError (the only
error kind World construction can produce). -/
theorem world_dof_formula_and_overconstrained_fails (rcs : List (RotConstraint K))
    (fcs : List (FixedConstraint K)) :
    World.dofOf rcs fcs =
      3 * ((allBodyIds rcs fcs).dedup.length : ℤ) -
        2 * (rcs.length : ℤ) - 3 * (fcs.length : ℤ) ∧
    (World.dofOf rcs fcs < 0 →
      ∃ msgs, World.make rcs fcs = .error (.worldSetupError msgs)) := by
  constructor
  · unfold World.dofOf degOfFreedom
    rw [loadBodies_registry_length]
  · intro hneg
    unfold World.make
    have hmem : overConstrainedMsg (World.dofOf rcs fcs) ∈
        (loadBodies rcs fcs).2 ++
          (if World.dofOf rcs fcs < 0 then
            [overConstrainedMsg (World.dofOf rcs fcs)] else []) := by
      rw [if_pos hneg]
      simp
    have hne : ¬ ((loadBodies rcs fcs).2 ++
        (if World.dofOf rcs fcs < 0 then
          [overConstrainedMsg (World.dofOf rcs fcs)] else [])).isEmpty := by
      rw [List.isEmpty_iff]
      intro hempty
      rw [hempty] at hmem
      exact List.not_mem_nil _ hmem
    dsimp only
    rw [if_neg hne]
    exact ⟨_, rfl⟩

/-- C4 witness: one rotational constraint joining two bodies that are both
also pinned gives dof = -2 < 0 and a WorldSetupError. -/
theorem world_overconstrained_witness :
    (World.dofOf (K := ℚ)
        [⟨⟨"a", 0, 0, 0⟩, ⟨1, 0⟩, ⟨"b", 2, 0, 0⟩, ⟨0, 0⟩⟩]
        [FixedConstraint.make ⟨"a", 0, 0, 0⟩, FixedConstraint.make ⟨"b", 2, 0, 0⟩] < 0) ∧
    ∃ msgs, World.make (K := ℚ)
        [⟨⟨"a", 0, 0, 0⟩, ⟨1, 0⟩, ⟨"b", 2, 0, 0⟩, ⟨0, 0⟩⟩]
        [FixedConstraint.make ⟨"a", 0, 0, 0⟩, FixedConstraint.make ⟨"b", 2, 0, 0⟩] =
      .error (.worldSetupError msgs) :=
  ⟨by decide,
    (world_dof_formula_and_overconstrained_fails _ _).2 (by decide)⟩

/-- C5 counterexample: constructing a RotationalConstraint whose two bodies
share an id throws immediately at constraint construction (rot-constraint.ts
throws an Error in the constructor), refuting the claim that construction
never throws. -/
theorem rotConstraint_make_self_reference_throws :
    RotConstraint.make (K := ℚ) ⟨"x", 0, 0, 0⟩ ⟨1, 0⟩ ⟨"x", 2, 0, 0⟩ ⟨0, 0⟩ =
      .error (.error "A body cannot be constraint to itself. Body id: x") := by
  rfl

/-- C5 amended: a RotationalConstraint whose bodies share an id throws an
Error at constraint construction; independently, World construction
(loadBodies) accumulates one error entry for every self-referencing
RotConstraint value in its input list, in order, without short-circuiting. -/
theorem rotConstraint_self_reference_accumulation
    (bodyA : Body K) (anchorA : Vec K) (bodyB : Body K) (anchorB : Vec K)
    (hid : bodyA.id = bodyB.id) :
    RotConstraint.make bodyA anchorA bodyB anchorB =
      .error (.error ("A body cannot be constraint to itself. Body id: " ++ bodyA.id)) ∧
    ∀ (rcs : List (RotConstraint K)) (fcs : List (FixedConstraint K)),
      (loadBodies rcs fcs).2 =
        (rcs.filter (fun rc => rc.bodyA.id == rc.bodyB.id)).map
          (fun rc => selfRefMsg rc.bodyA.id) := by
  constructor
  · unfold RotConstraint.make
    rw [if_pos hid]
  · intro rcs fcs
    rw [loadBodies_registry_eq]

/-- C5 witness: a concrete same-id pair is rejected at construction, and a
world with two self-referencing constraint values accumulates both error
entries. -/
theorem rotConstraint_self_reference_accumulation_witness :
    RotConstraint.make (K := ℚ) ⟨"p", 0, 0, 0⟩ ⟨1, 0⟩ ⟨"p", 5, 5, 0⟩ ⟨0, 0⟩ =
      .error (.error ("A body cannot be constraint to itself. Body id: " ++ "p")) ∧
    (loadBodies (K := ℚ)
        [⟨⟨"p", 0, 0, 0⟩, ⟨1, 0⟩, ⟨"p", 5, 5, 0⟩, ⟨0, 0⟩⟩,
         ⟨⟨"q", 0, 0, 0⟩, ⟨1, 0⟩, ⟨"q", 5, 5, 0⟩, ⟨0, 0⟩⟩] []).2 =
      [selfRefMsg "p", selfRefMsg "q"] := by
  have h := rotConstraint_self_reference_accumulation (K := ℚ)
    ⟨"p", 0, 0, 0⟩ ⟨1, 0⟩ ⟨"p", 5, 5, 0⟩ ⟨0, 0⟩ rfl
  refine ⟨h.1, ?_⟩
  rw [h.2
    [⟨⟨"p", 0, 0, 0⟩, ⟨1, 0⟩, ⟨"p", 5, 5, 0⟩, ⟨0, 0⟩⟩,
     ⟨⟨"q", 0, 0, 0⟩, ⟨1, 0⟩, ⟨"q", 5, 5, 0⟩, ⟨0, 0⟩⟩] []]
  rfl

/-- Dense matrix as a row list (mathjs Matrix). -/
abbrev Mat (K : Type) := List (List K)

/-- mathjs get([i, j]) with the out-of-range reads defaulted to 0 (the
sources only read in-range entries). -/
def Mat.get (M : Mat K) (i j : ℕ) : K :=
  (M.getD i []).getD j 0

/-- mathjs size()[0]. -/
def Mat.rows (M : Mat K) : ℕ := M.length

/-- mathjs size()[1]. -/
def Mat.cols (M : Mat K) : ℕ := (M.headD []).length

/-- mathjs sign: -1, 0 or 1 elementwise. -/
def signK (v : K) : K :=
  if v < 0 then -1 else if 0 < v then 1 else 0

/-- mathjs abs(sign(M)) elementwise, as used on the Jacobian. -/
def absSign (M : Mat K) : Mat K :=
  M.map (fun row => row.map (fun v => |signK v|))

/-- world.ts sumRows record: the row sum together with the row index. -/
structure RowSum (K : Type) where
  sum : K
  i : ℕ
  deriving Repr, DecidableEq

/-- world.ts sumRows. -/
def sumRows (mat : Mat K) : List (RowSum K) :=
  (List.range (Mat.rows mat)).map (fun i =>
    ⟨((List.range (Mat.cols mat)).map (fun j => Mat.get mat i j)).sum, i⟩)

/-- Loop body of world.ts selectSolverVariableIndices: for each row (in the
sorted processing order) scan the columns from 0 and claim the first one
with a nonzero Jacobian entry that is not already claimed; throw when none
is left.  The claimed-set dictionary is represented by the list of selected
columns in processing order. -/
def selectGo (J : Mat K) (m : ℕ) :
    List (RowSum K) → List ℕ → Except JsError (List ℕ)
  | [], acc => .ok acc
  | row :: rest, acc =>
    match (List.range m).find?
        (fun j => decide (0 < |Mat.get J row.i j|) && !(acc.contains j)) with
    | none => .error (.unableToSolveError
        "Unale to find enough independent variables to solve the system")
    | some j => selectGo J m rest (acc ++ [j])

/-- The comparator of world.ts selectSolverVariableIndices: (a, b) =>
a.sum - b.sum, i.e. ascending row sums. -/
def rowSumLE (a b : RowSum K) : Prop := a.sum ≤ b.sum

instance : DecidableRel (rowSumLE (K := K)) := fun a b =>
  inferInstanceAs (Decidable (a.sum ≤ b.sum))

instance : IsTotal (RowSum K) (rowSumLE (K := K)) :=
  ⟨fun a b => le_total a.sum b.sum⟩

instance : IsTrans (RowSum K) (rowSumLE (K := K)) :=
  ⟨fun _ _ _ => le_trans⟩

/-- world.ts selectSolverVariableIndices: rows sorted ascending by their
count of nonzero entries, then one free column claimed per row.  JavaScript
Array.sort with this comparator is a stable sort; insertionSort is the
stable sort of the library, and a stable sort's output on a fixed comparator
is unique. -/
def selectSolverVariableIndices (J : Mat K) : Except JsError (List ℕ) :=
  let m := Mat.cols J
  let rowSums := sumRows (absSign J)
  let sorted := rowSums.insertionSort rowSumLE
  selectGo J m sorted []

/-- The row processing order of the selection heuristic. -/
def rowOrder (J : Mat K) : List ℕ :=
  ((sumRows (absSign J)).insertionSort rowSumLE).map (·.i)

/-- Number of nonzero Jacobian entries in row i. -/
def rowNonzeroCount (J : Mat K) (i : ℕ) : ℕ :=
  ((List.range (Mat.cols J)).filter (fun j => Mat.get J i j ≠ 0)).length

theorem abs_signK_eq (v : K) : |signK v| = if v ≠ 0 then (1 : K) else 0 := by
  unfold signK
  rcases lt_trichotomy v 0 with h | h | h
  · rw [if_pos h, if_pos (by exact ne_of_lt h)]
    simp
  · subst h
    simp
  · rw [if_neg (by exact not_lt.mpr (le_of_lt h)), if_pos h,
      if_pos (by exact ne_of_gt h)]
    simp

theorem getD_map_list {α β : Type} (f : α → β) (l : List (List α)) (i : ℕ) :
    (l.map (fun r => r.map f)).getD i [] = (l.getD i []).map f := by
  rw [List.getD_eq_getElem?_getD, List.getD_eq_getElem?_getD, List.getElem?_map]
  cases l[i]? <;> simp

theorem getD_map_zero (f : K → K) (hf : f 0 = 0) (row : List K) (j : ℕ) :
    (row.map f).getD j 0 = f (row.getD j 0) := by
  rw [List.getD_eq_getElem?_getD, List.getD_eq_getElem?_getD, List.getElem?_map]
  cases row[j]? <;> simp [hf]

theorem get_absSign (J : Mat K) (i j : ℕ) :
    Mat.get (absSign J) i j = |signK (Mat.get J i j)| := by
  unfold Mat.get absSign
  rw [getD_map_list, getD_map_zero]
  simp [signK]

theorem cols_absSign (J : Mat K) : Mat.cols (absSign J) = Mat.cols J := by
  unfold Mat.cols absSign
  cases J with
  | nil => rfl
  | cons r rs => simp

theorem rows_absSign (J : Mat K) : Mat.rows (absSign J) = Mat.rows J := by
  unfold Mat.rows absSign
  simp

theorem rowSum_eq_count (J : Mat K) (i : ℕ) :
    ((List.range (Mat.cols (absSign J))).map (fun j => Mat.get (absSign J) i j)).sum =
      (rowNonzeroCount J i : K) := by
  rw [cols_absSign]
  unfold rowNonzeroCount
  induction List.range (Mat.cols J) with
  | nil => simp
  | cons j l ih =>
    rw [List.map_cons, List.sum_cons, ih, get_absSign, abs_signK_eq,
      List.filter_cons]
    by_cases h : Mat.get J i j ≠ 0
    · rw [if_pos h, if_pos (by simpa using h)]
      simp only [List.length_cons, Nat.cast_add, Nat.cast_one]
      ring
    · rw [if_neg h, if_neg (by simpa using h)]
      simp

theorem selectGo_error (J : Mat K) (m : ℕ) (rows : List (RowSum K))
    (acc : List ℕ) (e : JsError) (h : selectGo J m rows acc = .error e) :
    e = .unableToSolveError
      "Unale to find enough independent variables to solve the system" := by
  induction rows generalizing acc with
  | nil => simp [selectGo] at h
  | cons row rest ih =>
    rw [selectGo] at h
    cases hf : (List.range m).find?
        (fun j => decide (0 < |Mat.get J row.i j|) && !(acc.contains j)) with
    | none =>
      rw [hf] at h
      simpa using h.symm
    | some j =>
      rw [hf] at h
      exact ih _ h

theorem selectGo_ok (J : Mat K) (m : ℕ) (rows : List (RowSum K)) :
    ∀ (acc sel : List ℕ), acc.Nodup → selectGo J m rows acc = .ok sel →
      ∃ tail, sel = acc ++ tail ∧ tail.length = rows.length ∧ sel.Nodup ∧
        ∀ k, k < rows.length →
          Mat.get J ((rows.map (·.i)).getD k 0) (tail.getD k 0) ≠ 0 := by
  induction rows with
  | nil =>
    intro acc sel hacc h
    simp only [selectGo] at h
    have hs : acc = sel := by
      injection h
    subst hs
    exact ⟨[], by simp, rfl, hacc, fun k hk => absurd hk (by simp)⟩
  | cons row rest ih =>
    intro acc sel hacc h
    rw [selectGo] at h
    cases hf : (List.range m).find?
        (fun j => decide (0 < |Mat.get J row.i j|) && !(acc.contains j)) with
    | none =>
      rw [hf] at h
      exact absurd h (by simp)
    | some j =>
      rw [hf] at h
      have hp := List.find?_some hf
      rw [Bool.and_eq_true, decide_eq_true_eq, Bool.not_eq_true'] at hp
      have hjnotin : j ∉ acc := by
        simpa using hp.2
      have hne : Mat.get J row.i j ≠ 0 := by
        have := hp.1
        intro h0
        rw [h0] at this
        simp at this
      have hacc' : (acc ++ [j]).Nodup := by
        rw [List.nodup_append]
        exact ⟨hacc, List.nodup_singleton _, by simpa using hjnotin⟩
      rcases ih (acc ++ [j]) sel hacc' h with ⟨tail, hsel, hlen, hnd, hprop⟩
      refine ⟨j :: tail, by rw [hsel, List.append_assoc]; rfl, by simp [hlen],
        hnd, ?_⟩
      intro k hk
      cases k with
      | zero =>
        simpa using hne
      | succ k =>
        have := hprop k (by simpa using Nat.lt_of_succ_lt_succ hk)
        simpa using this

/-- C8: the world.ts selection heuristic processes residual rows in ascending
order of their nonzero-entry counts, assigns each processed row a column
with a nonzero Jacobian entry in that row that no earlier row claimed
(yielding exactly one distinct column per residual row), and fails with the
insufficient-independent-variables error when a row has no eligible column
left. -/
theorem select_variables_heuristic (J : Mat K) :
    (∀ sel, selectSolverVariableIndices J = .ok sel →
      sel.length = Mat.rows J ∧ sel.Nodup ∧
      (∀ k, k < sel.length →
        Mat.get J ((rowOrder J).getD k 0) (sel.getD k 0) ≠ 0) ∧
      ((rowOrder J).map (rowNonzeroCount J)).Sorted (· ≤ ·)) ∧
    (∀ e, selectSolverVariableIndices J = .error e →
      e = .unableToSolveError
        "Unale to find enough independent variables to solve the system") := by
  have hperm := List.perm_insertionSort (rowSumLE (K := K)) (sumRows (absSign J))
  have hsortlen : ((sumRows (absSign J)).insertionSort rowSumLE).length =
      Mat.rows J := by
    rw [hperm.length_eq]
    unfold sumRows
    rw [List.length_map, List.length_range, rows_absSign]
  constructor
  · intro sel hsel
    unfold selectSolverVariableIndices at hsel
    rcases selectGo_ok J (Mat.cols J) _ [] sel (by simp) hsel with
      ⟨tail, hseleq, hlen, hnd, hprop⟩
    have htail : sel = tail := by simpa using hseleq
    subst htail
    refine ⟨by rw [hlen, hsortlen], hnd, ?_, ?_⟩
    · intro k hk
      have := hprop k (by rw [← hlen]; exact hk)
      rw [show (rowOrder J) = ((sumRows (absSign J)).insertionSort
        rowSumLE).map (·.i) from rfl]
      exact this
    · have hpw : ((sumRows (absSign J)).insertionSort rowSumLE).Pairwise
          (rowSumLE (K := K)) :=
        List.sorted_insertionSort rowSumLE (sumRows (absSign J))
      have hmemsum : ∀ rs ∈ (sumRows (absSign J)).insertionSort rowSumLE,
          rs.sum = (rowNonzeroCount J rs.i : K) := by
        intro rs hrs
        have : rs ∈ sumRows (absSign J) := hperm.mem_iff.mp hrs
        unfold sumRows at this
        rcases List.mem_map.mp this with ⟨i, _, hrseq⟩
        rw [← hrseq]
        exact rowSum_eq_count J i
      unfold rowOrder
      rw [List.map_map, List.Sorted, List.pairwise_map]
      apply List.Pairwise.imp_of_mem ?_ hpw
      intro a b ha hb hab
      unfold rowSumLE at hab
      rw [hmemsum a ha, hmemsum b hb] at hab
      simpa using (Nat.cast_le (α := K)).mp hab
  · intro e he
    unfold selectSolverVariableIndices at he
    exact selectGo_error J (Mat.cols J) _ [] e he

/-- C8 witness: on the 2-by-2 Jacobian [[1,0],[1,1]] the heuristic selects
columns 0 then 1; the theorem instantiated there yields the distinctness and
ascending-count conclusions. -/
theorem select_variables_heuristic_witness :
    ([0, 1] : List ℕ).Nodup ∧
      ((rowOrder (K := ℚ) [[1, 0], [1, 1]]).map
        (rowNonzeroCount (K := ℚ) [[1, 0], [1, 1]])).Sorted (· ≤ ·) :=
  have h := (select_variables_heuristic (K := ℚ) [[1, 0], [1, 1]]).1 [0, 1] (by
    norm_num [selectSolverVariableIndices, sumRows, absSign, Mat.get, Mat.cols,
      Mat.rows, signK, selectGo, rowSumLE, List.insertionSort, List.orderedInsert,
      List.range_succ])
  ⟨h.2.1, h.2.2.2⟩

/-- solver-solution.ts SolverSolution: solved vector, flag, message. -/
structure SolverSolution (K : Type) where
  x : List K
  solved : Bool
  msg : String
  deriving Repr, DecidableEq

/-- solver-solution.ts success constructor. -/
def SolverSolution.success (x : List K) : SolverSolution K :=
  ⟨x, true, "Solution achived"⟩

/-- solver-solution.ts timeOut constructor. -/
def SolverSolution.timeOut (x : List K) : SolverSolution K :=
  ⟨x, false, "No solution found. Solver timed out"⟩

/-- solver-solution.ts maxIterReached constructor. -/
def SolverSolution.maxIterReached (x : List K) : SolverSolution K :=
  ⟨x, false, "No solution found. Max number of iteratios reached"⟩

/-- solver.ts constructor configuration (defaults 1e-6, 1e3, 3.6e6, 1e-9). -/
structure SolverCfg (K : Type) where
  stopError : K
  maxIterations : ℕ
  timeOut : K
  delta : K

/-- max(abs(v)) of mathjs over a column vector (0 for the empty vector,
where mathjs would throw; every use in scope has nonnegative entries so the
0 seed is neutral). -/
def maxAbs (l : List K) : K :=
  l.foldr (fun v acc => max |v| acc) 0

/-- The while-loop guard error >= stopError; the error accumulator starts at
Infinity, modelled as none. -/
def errGE (error : Option K) (stopError : K) : Bool :=
  match error with
  | none => true
  | some e => decide (stopError ≤ e)

/-- mathjs multiply(matrix, column vector): row-wise dot products (the
sources only multiply with matching dimensions; zip truncates instead of
throwing on a mismatch). -/
def matVecMul (M : Mat K) (v : List K) : List K :=
  M.map (fun row => ((row.zip v).map (fun p => p.1 * p.2)).sum)

/-- mathjs add of two column vectors (dimensions always match in scope). -/
def vecAdd (a b : List K) : List K :=
  List.zipWith (· + ·) a b

/-- J.subset(index(range(0, m), selIndices)): rows 0..m-1 restricted to the
selected columns. -/
def subMatCols (J : Mat K) (m : ℕ) (sel : List ℕ) : Mat K :=
  (List.range m).map (fun i => sel.map (fun j => Mat.get J i j))

/-- x.subset(index(selIndices, 0)): the selected entries of x. -/
def subRows (x : List K) (sel : List ℕ) : List K :=
  sel.map (fun i => x.getD i 0)

/-- The write-back loop of solveUnderdetermined: for each selected index,
x.set([bigXi, 0], smallX.get([smallXi, 0])). -/
def updateSel (x : List K) (sel : List ℕ) (smallX : List K) : List K :=
  sel.enum.foldl (fun acc p => vset acc p.2 (smallX.getD p.1 0)) x

/-- JavaScript Array.prototype.sort default comparator: elements converted
to strings and compared lexicographically. -/
def jsNatLE (a b : ℕ) : Prop := Nat.repr a ≤ Nat.repr b

instance : DecidableRel jsNatLE := fun a b =>
  inferInstanceAs (Decidable (Nat.repr a ≤ Nat.repr b))

/-- Row loop of solver.ts selectIndices: the inner column scan resets its
max accumulator to 0 on every column, so it collects every unclaimed column
with a nonzero Jacobian entry; one of them is picked pseudo-randomly
(Math.floor(Math.random()*length), modelled by the choice parameter reduced
into range), and a row with no eligible column throws. -/
def selectIndicesGo (J : Mat K) (m : ℕ) (choice : ℕ → ℕ) :
    List (RowSum K) → List ℕ → Except JsError (List ℕ)
  | [], acc => .ok acc
  | row :: rest, acc =>
    let selectedjs := (List.range m).filter
      (fun j => decide (0 < |Mat.get J row.i j|) && !(acc.contains j))
    if selectedjs.length = 0 then
      .error (.error "Unale to find enough independent variables to solve the system.")
    else
      let selectedj := selectedjs.getD (choice selectedjs.length % selectedjs.length) 0
      selectIndicesGo J m choice rest (acc ++ [selectedj])

/-- solver.ts selectIndices: Jacobian at x, rows sorted ascending by nonzero
count, a random eligible column per row, and the selected list sorted with
the JavaScript default (string) comparator. -/
def selectIndicesS (jac : (List K → List K) → List K → Mat K) (choice : ℕ → ℕ)
    (f : List K → List K) (x : List K) : Except JsError (List ℕ) :=
  let J := jac f x
  let m := Mat.cols J
  let rowSums := sumRows (absSign J)
  let sorted := rowSums.insertionSort rowSumLE
  match selectIndicesGo J m choice sorted [] with
  | .error e => .error e
  | .ok sel => .ok (sel.insertionSort jsNatLE)

/-- The while loop of solver.ts solveUnderdetermined, with explicit fuel
(ok none = fuel exhausted with the loop still running).  The parameters:
jac is the fsolve-js Differentiator jacobian, minv the mathjs inverse (none
on a singular matrix, where mathjs throws the error the catch block
handles), choice the Math.random tie-break, elapsed the wall-clock
milliseconds observed at the pass-th timeout check.  The maxIterations and
timeOut checks of the source construct a SolverSolution but do not return
it (no return statement), which the two discarded lets reproduce. -/
def solveUnderLoop (jac : (List K → List K) → List K → Mat K)
    (minv : Mat K → Option (Mat K)) (choice : ℕ → ℕ) (elapsed : ℕ → K)
    (cfg : SolverCfg K) (f : List K → List K) (m : ℕ) :
    ℕ → List K → List ℕ → Option K → ℕ → ℕ →
      Except JsError (Option (SolverSolution K))
  | 0, _, _, _, _, _ => .ok none
  | fuel + 1, x, selIndices, error, iter, pass =>
    if errGE error cfg.stopError then
      match (if iter % 10 = 0 then selectIndicesS jac choice f x
             else .ok selIndices) with
      | .error e => .error e
      | .ok sel =>
        let y := f x
        let J := jac f x
        let smallJ := subMatCols J m sel
        let smallX := subRows x sel
        let _discardedMaxIter : Option (SolverSolution K) :=
          if cfg.maxIterations ≤ iter then
            some (SolverSolution.maxIterReached x) else none
        let _discardedTimeOut : Option (SolverSolution K) :=
          if cfg.timeOut ≤ elapsed pass then
            some (SolverSolution.timeOut x) else none
        let b := y.map (fun v => v * (-1))
        match minv smallJ with
        | none =>
          match selectIndicesS jac choice f x with
          | .error e => .error e
          | .ok sel2 =>
            solveUnderLoop jac minv choice elapsed cfg f m fuel x sel2 error
              iter (pass + 1)
        | some invJ =>
          let h := matVecMul invJ b
          let smallX2 := vecAdd smallX h
          let x2 := updateSel x sel smallX2
          solveUnderLoop jac minv choice elapsed cfg f m fuel x2 sel
            (some (maxAbs (f x2))) (iter + 1) (pass + 1)
    else
      .ok (some (SolverSolution.success x))

/-- The while loop of solver.ts solveDetermined, with explicit fuel.  Here
the maxIterations and timeOut checks do return their SolverSolution. -/
def solveDetLoop (jac : (List K → List K) → List K → Mat K)
    (minv : Mat K → Option (Mat K)) (elapsed : ℕ → K) (cfg : SolverCfg K)
    (f : List K → List K) :
    ℕ → List K → Option K → ℕ → Except JsError (Option (SolverSolution K))
  | 0, _, _, _ => .ok none
  | fuel + 1, x, error, iter =>
    if errGE error cfg.stopError then
      if cfg.maxIterations ≤ iter then
        .ok (some (SolverSolution.maxIterReached x))
      else if cfg.timeOut ≤ elapsed iter then
        .ok (some (SolverSolution.timeOut x))
      else
        let y0 := f x
        let J := jac f x
        let b := y0.map (fun v => v * (-1))
        match minv J with
        | none => .error (.error "Cannot calculate inverse, determinant is zero")
        | some invJ =>
          let h := matVecMul invJ b
          let x2 := vecAdd x h
          solveDetLoop jac minv elapsed cfg f fuel x2
            (some (maxAbs (f x2))) (iter + 1)
    else
      .ok (some (SolverSolution.success x))

/-- solver.ts solveDetermined. -/
def Solver.solveDetermined (jac : (List K → List K) → List K → Mat K)
    (minv : Mat K → Option (Mat K)) (elapsed : ℕ → K) (cfg : SolverCfg K)
    (f : List K → List K) (x : List K) (fuel : ℕ) :
    Except JsError (Option (SolverSolution K)) :=
  let n := x.length
  let m := (f x).length
  if m ≠ n then
    .error (.error "Unable to solve. System has different number of equations and variables.")
  else
    solveDetLoop jac minv elapsed cfg f fuel x none 0

/-- solver.ts solveUnderdetermined. -/
def Solver.solveUnderdetermined (jac : (List K → List K) → List K → Mat K)
    (minv : Mat K → Option (Mat K)) (choice : ℕ → ℕ) (elapsed : ℕ → K)
    (cfg : SolverCfg K) (f : List K → List K) (x : List K) (fuel : ℕ) :
    Except JsError (Option (SolverSolution K)) :=
  let n := x.length
  let m := (f x).length
  if n < m then
    .error (.error "Unable to solve. System has more equations than variables.")
  else
    solveUnderLoop jac minv choice elapsed cfg f m fuel x [] none 0 0

/-- solver.ts solve: dispatch on variable versus equation count. -/
def Solver.solve (jac : (List K → List K) → List K → Mat K)
    (minv : Mat K → Option (Mat K)) (choice : ℕ → ℕ) (elapsed : ℕ → K)
    (cfg : SolverCfg K) (f : List K → List K) (x : List K) (fuel : ℕ) :
    Except JsError (Option (SolverSolution K)) :=
  let n := x.length
  let m := (f x).length
  if n = m then
    Solver.solveDetermined jac minv elapsed cfg f x fuel
  else if m < n then
    Solver.solveUnderdetermined jac minv choice elapsed cfg f x fuel
  else
    .error (.error "Unable to solve. System has more equations than variables")

/-- The rootless residual of the spec's pathological test (f(x) = x^2 + 1)
read as a function of the first of two variables: an underdetermined system
(n = 2 variables, m = 1 equation) with no solution. -/
def fNoRoot (v : List ℚ) : List ℚ :=
  [(v.getD 0 0) ^ 2 + 1]

theorem fNoRoot_maxAbs_ge_one (v : List ℚ) : 1 ≤ maxAbs (fNoRoot v) := by
  unfold fNoRoot maxAbs
  simp only [List.foldr_cons, List.foldr_nil]
  have h : (0 : ℚ) ≤ (v.getD 0 0) ^ 2 := sq_nonneg _
  rw [abs_of_nonneg (by linarith)]
  rw [le_max_iff]
  left
  linarith

theorem solveUnderLoop_fNoRoot_no_solution
    (jac : (List ℚ → List ℚ) → List ℚ → Mat ℚ) (minv : Mat ℚ → Option (Mat ℚ))
    (choice : ℕ → ℕ) (elapsed : ℕ → ℚ) (cfg : SolverCfg ℚ)
    (hstop : cfg.stopError ≤ 1) :
    ∀ (fuel : ℕ) (x : List ℚ) (sel : List ℕ) (error : Option ℚ) (iter pass : ℕ),
      (∀ e, error = some e → 1 ≤ e) →
      ∀ s, solveUnderLoop jac minv choice elapsed cfg fNoRoot 1 fuel x sel error
        iter pass ≠ .ok (some s) := by
  intro fuel
  induction fuel with
  | zero =>
    intro x sel error iter pass _ s h
    simp [solveUnderLoop] at h
  | succ fuel ih =>
    intro x sel error iter pass hinv s h
    rw [solveUnderLoop] at h
    have hguard : errGE error cfg.stopError = true := by
      cases error with
      | none => rfl
      | some e =>
        have h1 := hinv e rfl
        unfold errGE
        rw [decide_eq_true_eq]
        linarith
    rw [if_pos hguard] at h
    cases hsel : (if iter % 10 = 0 then selectIndicesS jac choice fNoRoot x
        else .ok sel) with
    | error e =>
      rw [hsel] at h
      exact absurd h (by simp)
    | ok sel1 =>
      rw [hsel] at h
      dsimp only at h
      cases hinvm : minv (subMatCols (jac fNoRoot x) 1 sel1) with
      | none =>
        rw [hinvm] at h
        cases hsel2 : selectIndicesS jac choice fNoRoot x with
        | error e =>
          rw [hsel2] at h
          exact absurd h (by simp)
        | ok sel2 =>
          rw [hsel2] at h
          exact ih x sel2 error iter (pass + 1) hinv s h
      | some invJ =>
        rw [hinvm] at h
        exact ih _ sel1 _ (iter + 1) (pass + 1)
          (fun e he => by
            rw [Option.some.injEq] at he
            rw [← he]
            exact fNoRoot_maxAbs_ge_one _) s h

/-- C1: in the underdetermined case the budget checks of
solveUnderdetermined construct but never return their SolverSolution (the
return statements are missing), so with the rootless residual x^2 + 1 and
maxIterations = 0 the solver never returns any Solution for any amount of
fuel, any Jacobian, any matrix inverse, any tie-break, and any clock: the
loop either spins forever or throws, contradicting the claimed
max-iterations outcome. -/
theorem solver_underdetermined_budget_checks_lost
    (jac : (List ℚ → List ℚ) → List ℚ → Mat ℚ) (minv : Mat ℚ → Option (Mat ℚ))
    (choice : ℕ → ℕ) (elapsed : ℕ → ℚ) (fuel : ℕ) (s : SolverSolution ℚ) :
    Solver.solve jac minv choice elapsed
      ⟨1 / 1000000, 0, 3600000, 1 / 1000000000⟩ fNoRoot [0, 0] fuel ≠
      .ok (some s) := by
  intro h
  unfold Solver.solve at h
  rw [if_neg (by norm_num [fNoRoot]), if_pos (by norm_num [fNoRoot])] at h
  unfold Solver.solveUnderdetermined at h
  rw [if_neg (by norm_num [fNoRoot])] at h
  exact solveUnderLoop_fNoRoot_no_solution jac minv choice elapsed
    ⟨1 / 1000000, 0, 3600000, 1 / 1000000000⟩ (by norm_num) fuel [0, 0] [] none
    0 0 (fun e he => by cases he) s h

/-- world.ts loadInitialX0AndIndices, indices part: the i-th registry body
gets slots 3i, 3i+1, 3i+2. -/
def loadInitialIndices (bodies : List (Body K)) : List (String × Idx3) :=
  bodies.enum.map (fun p => (p.2.id, ⟨3 * p.1, 3 * p.1 + 1, 3 * p.1 + 2⟩))

/-- world.ts loadInitialX0AndIndices, x0 part: the constructor zeros vector
of length 3*nBodies filled at slots 3i, 3i+1, 3i+2 from the live poses. -/
def loadInitialX0 (bodies : List (Body K)) : List K :=
  bodies.enum.foldl
    (fun acc p =>
      vset (vset (vset acc (3 * p.1) p.2.x) (3 * p.1 + 1) p.2.y)
        (3 * p.1 + 2) p.2.theta)
    (List.replicate (bodies.length * 3) 0)

/-- The poses flattened in body order. -/
def flattenPoses (bodies : List (Body K)) : List K :=
  bodies.flatMap (fun b => [b.x, b.y, b.theta])

/-- Accumulator of world.ts loadIndicesDictAndGetX0: the x0 vector being
filled, the indices dictionary being rebuilt, and the two counters. -/
structure LoadAcc (K : Type) where
  x0 : List K
  indices : List (String × Idx3)
  xVecIndex : ℕ
  constIndex : ℕ

/-- Result of assigning one slot in loadIndicesDictAndGetX0: the x0 vector
after the write, the assigned position, and the updated counters. -/
structure SlotResult (K : Type) where
  x0 : List K
  assigned : ℕ
  xv : ℕ
  ci : ℕ

/-- One slot of the loadIndicesDictAndGetX0 loop (the source repeats this
block for x, y and theta): a selected slot takes the next solver index
(xVecIndex++), an unselected one the next constant index (constIndex++), and
the pose component is written at the assigned position. -/
def assignSlot (sel : List ℕ) (slotIdx : ℕ) (value : K) (x0 : List K)
    (xv ci : ℕ) : SlotResult K :=
  if sel.contains slotIdx then ⟨vset x0 xv value, xv, xv + 1, ci⟩
  else ⟨vset x0 ci value, ci, xv, ci + 1⟩

/-- One body of the loadIndicesDictAndGetX0 loop: three slot assignments and
the indices-dictionary entry for the body. -/
def loadIndicesStep (sel : List ℕ) (acc : LoadAcc K) (p : ℕ × Body K) :
    LoadAcc K :=
  let s1 := assignSlot sel (p.1 * 3) p.2.x acc.x0 acc.xVecIndex acc.constIndex
  let s2 := assignSlot sel (p.1 * 3 + 1) p.2.y s1.x0 s1.xv s1.ci
  let s3 := assignSlot sel (p.1 * 3 + 2) p.2.theta s2.x0 s2.xv s2.ci
  ⟨s3.x0, acc.indices ++ [(p.2.id, ⟨s1.assigned, s2.assigned, s3.assigned⟩)],
    s3.xv, s3.ci⟩

/-- world.ts loadIndicesDictAndGetX0: xVecIndex starts at 0, constIndex at
3*nBodies; the mathjs zeros([3*nBodies, 0]) start grows on the first write
to a 3*nBodies zero column, which List.replicate models directly.  The
indices dictionary entries are reassigned per body id (ids are distinct in
the registry, so appending is equivalent). -/
def loadIndicesDictAndGetX0 (bodies : List (Body K)) (sel : List ℕ) :
    LoadAcc K :=
  bodies.enum.foldl (loadIndicesStep sel)
    ⟨List.replicate (bodies.length * 3) 0, [], 0, bodies.length * 3⟩

/-- The state world.ts solve has built just before invoking the Solver. -/
structure PreSolve (K : Type) where
  indices : List (String × Idx3)
  x0 : List K
  solverX : List K

/-- world.ts solve, steps before the Solver call: initial x0 and indices
from the live poses, Jacobian of the residual there, variable selection
(throwing on failure), rearranged x0 and indices, and the solver vector of
the first n = 3*nBodies - dof entries. -/
def worldSolvePre (cosF sinF : K → K) (jac : (List K → List K) → List K → Mat K)
    (w : World K) : Except JsError (PreSolve K) :=
  let nBodies := w.bodiesLst.length
  let n : ℤ := 3 * (nBodies : ℤ) - w.dof
  let indices0 := loadInitialIndices w.bodiesLst
  let x01 := loadInitialX0 w.bodiesLst
  let J := jac (worldF cosF sinF w.rotConstraints w.fixConstraints indices0 x01) x01
  match selectSolverVariableIndices J with
  | .error e => .error e
  | .ok sel =>
    let la := loadIndicesDictAndGetX0 w.bodiesLst sel
    .ok ⟨la.indices, la.x0, la.x0.take n.toNat⟩

/-- world.ts setBodyPosition: a pose component is overwritten from the
solution vector when its index is within range (index <= length - 1) and
kept otherwise. -/
def setBodyPosition (indices : List (String × Idx3)) (solVec : List K)
    (body : Body K) : Body K :=
  let idx := (dictLookup indices body.id).getD ⟨0, 0, 0⟩
  { body with
    x := if idx.x < solVec.length then solVec.getD idx.x 0 else body.x
    y := if idx.y < solVec.length then solVec.getD idx.y 0 else body.y
    theta := if idx.theta < solVec.length then solVec.getD idx.theta 0
             else body.theta }

/-- world.ts solve: the pre-steps, the Solver call (the solver is an
injectable parameter of solve; ok none stands for a solver call that never
returns within its fuel), the non-convergence check throwing
UnableToSolveError with the solver message, and the write-back into every
registry body on success.  The second component is the body list after the
call: bodies are mutated only on the success path. -/
def worldSolve (cosF sinF : K → K) (jac : (List K → List K) → List K → Mat K)
    (slv : (List K → List K) → List K →
      Except JsError (Option (SolverSolution K)))
    (w : World K) :
    Option (Except JsError Unit × List (Body K)) :=
  match worldSolvePre cosF sinF jac w with
  | .error e => some (.error e, w.bodiesLst)
  | .ok pre =>
    match slv (worldF cosF sinF w.rotConstraints w.fixConstraints pre.indices
        pre.x0) pre.solverX with
    | .error e => some (.error e, w.bodiesLst)
    | .ok none => none
    | .ok (some sol) =>
      if sol.solved then
        some (.ok (), w.bodiesLst.map (setBodyPosition pre.indices sol.x))
      else
        some (.error (.unableToSolveError sol.msg), w.bodiesLst)

/-- C6: whenever the Solver returns a non-converged Solution, World.solve
raises UnableToSolveError carrying the solver termination message and the
bodies are exactly as before the call (mutation happens only on the success
path). -/
theorem world_solve_nonconverged_raises_and_keeps_bodies
    (cosF sinF : K → K) (jac : (List K → List K) → List K → Mat K)
    (w : World K) (sol : SolverSolution K) (pre : PreSolve K)
    (hpre : worldSolvePre cosF sinF jac w = .ok pre)
    (hns : sol.solved = false) :
    worldSolve cosF sinF jac (fun _ _ => .ok (some sol)) w =
      some (.error (.unableToSolveError sol.msg), w.bodiesLst) := by
  unfold worldSolve
  rw [hpre]
  dsimp only
  rw [hns]
  rfl

/-- A dimension-correct Jacobian oracle with identity pattern: entry (i, j)
is 1 when i = j and 0 otherwise, one row per residual component and one
column per state component.  It is the exact Jacobian of a residual of the
form x - target in the leading coordinates. -/
def jacEye : (List ℚ → List ℚ) → List ℚ → Mat ℚ := fun f x =>
  (List.range (f x).length).map (fun i =>
    (List.range x.length).map (fun j => if i = j then 1 else 0))

/-- A Jacobian oracle returning a single all-zero row. -/
def jacZero3 : (List ℚ → List ℚ) → List ℚ → Mat ℚ := fun _ _ => [[0, 0, 0]]

/-- A body pinned at the origin. -/
def bodyA0 : Body ℚ := ⟨"a", 0, 0, 0⟩

/-- The World that World.make builds from one FixedConstraint pinning
bodyA0: one registry entry, dof = 0. -/
def worldFix1 : World ℚ :=
  ⟨[], [FixedConstraint.make bodyA0], [("a", bodyA0)], [bodyA0], [0, 0, 0], 0⟩

theorem worldFix1_make : World.make (K := ℚ) [] [FixedConstraint.make bodyA0] =
    .ok worldFix1 := by
  rfl

theorem worldFix1_pre :
    worldSolvePre (fun t => t) (fun t => t) jacEye worldFix1 =
      .ok ⟨[("a", ⟨0, 1, 2⟩)], [0, 0, 0], [0, 0, 0]⟩ := by
  norm_num [worldSolvePre, loadInitialIndices, loadInitialX0, worldF, writeSeq,
    vset, fixConstraintF, getBodyPosition, dictLookup, FixedConstraint.make,
    FixedConstraint.f, jacEye, selectSolverVariableIndices, sumRows, absSign,
    signK, Mat.get, Mat.rows, Mat.cols, selectGo, rowSumLE, List.insertionSort,
    List.orderedInsert, List.range_succ, loadIndicesDictAndGetX0,
    loadIndicesStep, assignSlot, worldFix1, bodyA0]
  decide

/-- C6 witness: a timed-out Solution on the one-body pinned world makes
World.solve raise UnableToSolveError with the timeout message, leaving the
body list untouched. -/
theorem world_solve_nonconverged_witness :
    (⟨[0, 0, 0], false, "No solution found. Solver timed out"⟩ :
      SolverSolution ℚ).solved = false ∧
    worldSolve (fun t => t) (fun t => t) jacEye
      (fun _ _ => .ok (some ⟨[0, 0, 0], false,
        "No solution found. Solver timed out"⟩)) worldFix1 =
      some (.error (.unableToSolveError "No solution found. Solver timed out"),
        [bodyA0]) :=
  ⟨rfl, world_solve_nonconverged_raises_and_keeps_bodies (fun t => t)
    (fun t => t) jacEye worldFix1
    ⟨[0, 0, 0], false, "No solution found. Solver timed out"⟩
    ⟨[("a", ⟨0, 1, 2⟩)], [0, 0, 0], [0, 0, 0]⟩ worldFix1_pre rfl⟩

/-- C7 counterexample: at the World level the selection-heuristic failure is
raised as an UnableToSolveError, the very same error class World.solve uses
to report solver non-convergence, so the two failure modes are not distinct
error kinds: on the one-body world, a zero Jacobian row and a non-converged
Solution both yield errors whose class name is UnableToSolveError. -/
theorem config_error_kind_equals_nonconvergence_kind :
    ∃ e1 e2 : JsError,
      worldSolve (fun t => t) (fun t => t) jacZero3 (fun _ _ => .ok none)
        worldFix1 = some (.error e1, [bodyA0]) ∧
      worldSolve (fun t => t) (fun t => t) jacEye
        (fun _ _ => .ok (some ⟨[0, 0, 0], false,
          "No solution found. Max number of iteratios reached"⟩)) worldFix1 =
        some (.error e2, [bodyA0]) ∧
      e1.kindName = e2.kindName ∧ e1.kindName = "UnableToSolveError" := by
  refine ⟨.unableToSolveError
      "Unale to find enough independent variables to solve the system",
    .unableToSolveError "No solution found. Max number of iteratios reached",
    ?_, ?_, rfl, rfl⟩
  · norm_num [worldSolve, worldSolvePre, loadInitialIndices, loadInitialX0,
      worldF, writeSeq, vset, fixConstraintF, getBodyPosition, dictLookup,
      FixedConstraint.make, FixedConstraint.f, jacZero3,
      selectSolverVariableIndices, sumRows, absSign, signK, Mat.get, Mat.rows,
      Mat.cols, selectGo, rowSumLE, List.insertionSort, List.orderedInsert,
      List.range_succ, worldFix1, bodyA0]
  · unfold worldSolve
    rw [worldFix1_pre]
    rfl

/-- C7 amended: at the Solver level the two ill-posedness conditions are
thrown as plain Errors, distinct from the non-converged Solution the
determined loop returns on budget exhaustion; at the World level, however,
the selection failure is an UnableToSolveError, the same error class used
for non-convergence. -/
theorem config_errors_solver_distinct_world_shared :
    (∀ (jac : (List K → List K) → List K → Mat K) minv choice elapsed
        (cfg : SolverCfg K) f (x : List K) fuel,
      x.length < (f x).length →
        Solver.solve jac minv choice elapsed cfg f x fuel =
          .error (.error "Unable to solve. System has more equations than variables")) ∧
    (∀ (jac : (List K → List K) → List K → Mat K) minv choice elapsed
        (cfg : SolverCfg K) f (x : List K) fuel,
      (f x).length = x.length → cfg.maxIterations = 0 →
        Solver.solve jac minv choice elapsed cfg f x (fuel + 1) =
          .ok (some (SolverSolution.maxIterReached x)) ∧
        (SolverSolution.maxIterReached x).solved = false) ∧
    (∀ (jac : (List K → List K) → List K → Mat K) choice f (x : List K),
      jac f x ≠ [] → (∀ i j, Mat.get (jac f x) i j = 0) →
        selectIndicesS jac choice f x =
          .error (.error "Unale to find enough independent variables to solve the system.")) ∧
    (∀ (J : Mat K) e, selectSolverVariableIndices J = .error e →
      JsError.kindName e = "UnableToSolveError") := by
  refine ⟨?_, ?_, ?_, ?_⟩
  · intro jac minv choice elapsed cfg f x fuel hlt
    unfold Solver.solve
    rw [if_neg (by omega), if_neg (by omega)]
  · intro jac minv choice elapsed cfg f x fuel hm h0
    refine ⟨?_, rfl⟩
    unfold Solver.solve
    rw [if_pos (by omega)]
    unfold Solver.solveDetermined
    rw [if_neg (by omega)]
    rw [solveDetLoop]
    rw [if_pos (by rfl), if_pos (by omega)]
  · intro jac choice f x hne hzero
    unfold selectIndicesS
    have hrows : 1 ≤ Mat.rows (absSign (jac f x)) := by
      rw [rows_absSign]
      unfold Mat.rows
      cases hj : jac f x with
      | nil => exact absurd hj hne
      | cons r rs => simp
    have hlen : 1 ≤ ((sumRows (absSign (jac f x))).insertionSort
        rowSumLE).length := by
      rw [(List.perm_insertionSort rowSumLE _).length_eq]
      unfold sumRows
      rw [List.length_map, List.length_range]
      exact hrows
    cases hs : (sumRows (absSign (jac f x))).insertionSort rowSumLE with
    | nil => rw [hs] at hlen; simp at hlen
    | cons row rest =>
      dsimp only
      rw [hs]
      rw [selectIndicesGo]
      have hfilter : (List.range (Mat.cols (jac f x))).filter
          (fun j => decide (0 < |Mat.get (jac f x) row.i j|) &&
            !(([] : List ℕ).contains j)) = [] := by
        apply List.filter_eq_nil_iff.mpr
        intro j _
        rw [hzero row.i j]
        simp
      rw [hfilter]
      rfl
  · intro J e he
    rw [(select_variables_heuristic J).2 e he]
    rfl

/-- C7 amended witness: the over-determined rejection, the determined-loop
max-iterations Solution, the solver-level selection throw, and the
world-level selection error kind, each at a concrete input. -/
theorem config_errors_solver_distinct_world_shared_witness :
    Solver.solve jacEye (fun _ => none) (fun n => n) (fun _ => 0)
        ⟨1, 0, 1, 1⟩ (fun _ => [0, 0]) [0] 5 =
      .error (.error "Unable to solve. System has more equations than variables") ∧
    Solver.solve jacEye (fun _ => none) (fun n => n) (fun _ => 0)
        ⟨1, 0, 1, 1⟩ (fun v => v) [5] 1 =
      .ok (some (SolverSolution.maxIterReached [5])) ∧
    selectIndicesS jacZero3 (fun n => n) (fun _ => [0]) [0, 0, 0] =
      .error (.error "Unale to find enough independent variables to solve the system.") ∧
    JsError.kindName (.unableToSolveError
      "Unale to find enough independent variables to solve the system") =
      "UnableToSolveError" := by
  have h := config_errors_solver_distinct_world_shared (K := ℚ)
  refine ⟨h.1 jacEye (fun _ => none) (fun n => n) (fun _ => 0) ⟨1, 0, 1, 1⟩
      (fun _ => [0, 0]) [0] 5 (by norm_num), ?_, ?_, ?_⟩
  · exact (h.2.1 jacEye (fun _ => none) (fun n => n) (fun _ => 0) ⟨1, 0, 1, 1⟩
      (fun v => v) [5] 0 rfl rfl).1
  · refine h.2.2.1 jacZero3 (fun n => n) (fun _ => [0]) [0, 0, 0]
      (by simp [jacZero3]) ?_
    intro i j
    rcases i with _ | i
    · rcases j with _ | _ | _ | j <;> simp [jacZero3, Mat.get]
    · simp [jacZero3, Mat.get]
  · exact h.2.2.2 [[(0 : ℚ)]]
      (.unableToSolveError
        "Unale to find enough independent variables to solve the system")
      (by norm_num [selectSolverVariableIndices, sumRows, absSign, signK,
        Mat.get, Mat.rows, Mat.cols, selectGo, rowSumLE, List.insertionSort,
        List.orderedInsert, List.range_succ])

instance : Inhabited (Body K) := ⟨⟨"", 0, 0, 0⟩⟩

theorem getD_concat_length {α : Type} (l : List α) (e : α) (d : α) :
    (l ++ [e]).getD l.length d = e := by
  rw [List.getD_eq_getElem?_getD, List.getElem?_concat_length]
  rfl

theorem getD_append_left {α : Type} (l l2 : List α) (j : ℕ) (d : α)
    (hj : j < l.length) :
    (l ++ l2).getD j d = l.getD j d := by
  rw [List.getD_eq_getElem?_getD, List.getD_eq_getElem?_getD,
    List.getElem?_append_left hj]

theorem assignSlot_spec (sel : List ℕ) (slotIdx : ℕ) (value : K) (x0 : List K)
    (xv ci B : ℕ) (r : SlotResult K)
    (hr : assignSlot sel slotIdx value x0 xv ci = r)
    (hlen : x0.length = ci) (hci : B ≤ ci) (hxv : xv < B) :
    r.x0.length = r.ci ∧ B ≤ r.ci ∧ xv ≤ r.xv ∧ ci ≤ r.ci ∧
    r.xv + r.ci = xv + ci + 1 ∧
    (r.assigned < r.xv ∨ (B ≤ r.assigned ∧ r.assigned < r.ci)) ∧
    r.x0.getD r.assigned 0 = value ∧
    (∀ p, p < xv ∨ (B ≤ p ∧ p < ci) → r.x0.getD p 0 = x0.getD p 0) := by
  have hxvlen : xv < x0.length := by omega
  unfold assignSlot at hr
  by_cases hc : sel.contains slotIdx
  · rw [if_pos hc] at hr
    have hvset : vset x0 xv value = x0.set xv value := by
      unfold vset
      rw [if_pos hxvlen]
    rw [← hr]
    dsimp only
    rw [hvset]
    refine ⟨by rw [List.length_set]; exact hlen, hci, by omega, le_refl _,
      by omega, Or.inl (by omega), ?_, ?_⟩
    · rw [List.getD_eq_getElem?_getD, List.getElem?_set_self hxvlen]
      rfl
    · intro p hp
      have hne : xv ≠ p := by omega
      rw [List.getD_eq_getElem?_getD, List.getElem?_set_ne hne,
        ← List.getD_eq_getElem?_getD]
  · rw [if_neg hc] at hr
    have hvset : vset x0 ci value = x0 ++ [value] := by
      unfold vset
      rw [if_neg (by omega)]
      rw [hlen]
      simp
    rw [← hr]
    dsimp only
    rw [hvset]
    refine ⟨by rw [List.length_append, hlen]; rfl, by omega, le_refl _,
      by omega, by omega, Or.inr ⟨hci, by omega⟩, ?_, ?_⟩
    · rw [← hlen, getD_concat_length]
    · intro p hp
      exact getD_append_left x0 [value] p 0 (by omega)

/-- Invariant of the loadIndicesDictAndGetX0 fold after processing the
bodies of done, with B = 3 * nBodies the constIndex base. -/
def LoadInv (B : ℕ) (done : List (Body K)) (acc : LoadAcc K) : Prop :=
  acc.indices.map (·.1) = done.map (·.id) ∧
  acc.xVecIndex + acc.constIndex = 3 * done.length + B ∧
  B ≤ acc.constIndex ∧
  acc.x0.length = acc.constIndex ∧
  ∀ j, j < done.length → ∃ t : Idx3,
    acc.indices.getD j ("", ⟨0, 0, 0⟩) = ((done.getD j default).id, t) ∧
    (t.x < acc.xVecIndex ∨ (B ≤ t.x ∧ t.x < acc.constIndex)) ∧
    (t.y < acc.xVecIndex ∨ (B ≤ t.y ∧ t.y < acc.constIndex)) ∧
    (t.theta < acc.xVecIndex ∨ (B ≤ t.theta ∧ t.theta < acc.constIndex)) ∧
    acc.x0.getD t.x 0 = (done.getD j default).x ∧
    acc.x0.getD t.y 0 = (done.getD j default).y ∧
    acc.x0.getD t.theta 0 = (done.getD j default).theta

theorem loadIndicesStep_inv (B : ℕ) (sel : List ℕ) (done : List (Body K))
    (acc : LoadAcc K) (b : Body K) (hinv : LoadInv B done acc)
    (hroom : 3 * done.length + 3 ≤ B) :
    LoadInv B (done ++ [b]) (loadIndicesStep sel acc (done.length, b)) := by
  obtain ⟨hkeys, hsum, hcige, hx0len, hslots⟩ := hinv
  have hlen_indices : acc.indices.length = done.length := by
    have := congrArg List.length hkeys
    simpa using this
  unfold loadIndicesStep LoadInv
  dsimp only
  set r1 := assignSlot sel (done.length * 3) b.x acc.x0 acc.xVecIndex
    acc.constIndex with hr1
  set r2 := assignSlot sel (done.length * 3 + 1) b.y r1.x0 r1.xv r1.ci with hr2
  set r3 := assignSlot sel (done.length * 3 + 2) b.theta r2.x0 r2.xv r2.ci
    with hr3
  have hxvB : acc.xVecIndex < B := by omega
  obtain ⟨h1len, h1B, h1xvmono, h1cimono, h1sum, h1asg, h1val, h1pres⟩ :=
    assignSlot_spec sel (done.length * 3) b.x acc.x0 acc.xVecIndex
      acc.constIndex B r1 hr1.symm hx0len hcige hxvB
  have hxv1B : r1.xv < B := by omega
  obtain ⟨h2len, h2B, h2xvmono, h2cimono, h2sum, h2asg, h2val, h2pres⟩ :=
    assignSlot_spec sel (done.length * 3 + 1) b.y r1.x0 r1.xv r1.ci B r2
      hr2.symm h1len h1B hxv1B
  have hxv2B : r2.xv < B := by omega
  obtain ⟨h3len, h3B, h3xvmono, h3cimono, h3sum, h3asg, h3val, h3pres⟩ :=
    assignSlot_spec sel (done.length * 3 + 2) b.theta r2.x0 r2.xv r2.ci B r3
      hr3.symm h2len h2B hxv2B
  refine ⟨?_, ?_, h3B, h3len, ?_⟩
  · simp [hkeys]
  · simp only [List.length_append, List.length_singleton]
    omega
  · intro j hj
    rw [List.length_append, List.length_singleton] at hj
    by_cases hjd : j < done.length
    · obtain ⟨t, hentry, hbx, hby, hbt, hvx, hvy, hvt⟩ := hslots j hjd
      refine ⟨t, ?_, ?_, ?_, ?_, ?_, ?_, ?_⟩
      · rw [getD_append_left _ _ _ _ (by omega),
          getD_append_left _ _ _ _ hjd, hentry]
      · omega
      · omega
      · omega
      · rw [h3pres t.x (by omega), h2pres t.x (by omega), h1pres t.x (by omega),
          hvx, getD_append_left _ _ _ _ hjd]
      · rw [h3pres t.y (by omega), h2pres t.y (by omega), h1pres t.y (by omega),
          hvy, getD_append_left _ _ _ _ hjd]
      · rw [h3pres t.theta (by omega), h2pres t.theta (by omega),
          h1pres t.theta (by omega), hvt, getD_append_left _ _ _ _ hjd]
    · have hjeq : j = done.length := by omega
      subst hjeq
      have hgb : (done ++ [b]).getD done.length default = b :=
        getD_concat_length done b default
      refine ⟨⟨r1.assigned, r2.assigned, r3.assigned⟩, ?_, ?_, ?_, ?_, ?_, ?_, ?_⟩
      · rw [show done.length = acc.indices.length from hlen_indices.symm,
          getD_concat_length]
        rw [hlen_indices, hgb]
      · dsimp only
        omega
      · dsimp only
        omega
      · dsimp only
        omega
      · dsimp only
        rw [hgb, h3pres _ (by omega), h2pres _ (by omega), h1val]
      · dsimp only
        rw [hgb, h3pres _ (by omega), h2val]
      · dsimp only
        rw [hgb, h3val]

theorem loadIndicesFold_inv (B : ℕ) (sel : List ℕ) :
    ∀ (rest done : List (Body K)) (acc : LoadAcc K), LoadInv B done acc →
      3 * (done.length + rest.length) ≤ B →
      LoadInv B (done ++ rest)
        ((List.enumFrom done.length rest).foldl (loadIndicesStep sel) acc) := by
  intro rest
  induction rest with
  | nil =>
    intro done acc hinv _
    simpa using hinv
  | cons b rest ih =>
    intro done acc hinv hroom
    rw [List.enumFrom_cons, List.foldl_cons]
    have hstep := loadIndicesStep_inv B sel done acc b hinv (by
      simp only [List.length_cons] at hroom
      omega)
    have := ih (done ++ [b]) (loadIndicesStep sel acc (done.length, b))
      (by simpa using hstep)
      (by simp only [List.length_append, List.length_singleton,
            List.length_cons, List.length_nil] at hroom ⊢
          omega)
    rw [List.length_append, List.length_singleton] at this
    simpa [List.append_assoc] using this

theorem loadIndicesDict_inv (bodies : List (Body K)) (sel : List ℕ) :
    LoadInv (bodies.length * 3) bodies (loadIndicesDictAndGetX0 bodies sel) := by
  have h0 : LoadInv (K := K) (bodies.length * 3) []
      ⟨List.replicate (bodies.length * 3) 0, [], 0, bodies.length * 3⟩ := by
    refine ⟨rfl, by simp, le_refl _, by simp, ?_⟩
    intro j hj
    simp at hj
  have := loadIndicesFold_inv (bodies.length * 3) sel bodies []
    ⟨List.replicate (bodies.length * 3) 0, [], 0, bodies.length * 3⟩ h0
    (by simp; omega)
  unfold loadIndicesDictAndGetX0
  rw [show bodies.enum = List.enumFrom 0 bodies from rfl]
  simpa using this

theorem getD_eq_getElem {α : Type} (l : List α) (j : ℕ) (d : α)
    (h : j < l.length) : l.getD j d = l[j] := by
  rw [List.getD_eq_getElem?_getD, List.getElem?_eq_getElem h]
  rfl

theorem dictLookup_getD {α : Type} (l : List (String × α)) (d : String × α)
    (j : ℕ) (hnd : (l.map (·.1)).Nodup) (hj : j < l.length) :
    dictLookup l (l.getD j d).1 = some (l.getD j d).2 := by
  induction l generalizing j with
  | nil => simp at hj
  | cons p rest ih =>
    rw [List.map_cons, List.nodup_cons] at hnd
    cases j with
    | zero =>
      rw [List.getD_cons_zero]
      unfold dictLookup
      rw [List.find?_cons_of_pos _ (by simp)]
      rfl
    | succ j =>
      rw [List.getD_cons_succ]
      have hjr : j < rest.length := by simpa using hj
      have hkey : (rest.getD j d).1 ∈ rest.map (·.1) := by
        rw [getD_eq_getElem _ _ _ hjr]
        exact List.mem_map.mpr ⟨rest[j], List.getElem_mem hjr, rfl⟩
      have hne : ¬ (p.1 == (rest.getD j d).1) := by
        intro hc
        rw [beq_iff_eq] at hc
        rw [hc] at hnd
        exact hnd.1 hkey
      unfold dictLookup
      rw [List.find?_cons_of_neg _ (by simpa using hne)]
      exact ih j hnd.2 hjr

theorem flattenPoses_getD (bodies : List (Body K)) (k : ℕ)
    (hk : k < bodies.length) :
    (flattenPoses bodies).getD (3 * k) 0 = (bodies.getD k default).x ∧
    (flattenPoses bodies).getD (3 * k + 1) 0 = (bodies.getD k default).y ∧
    (flattenPoses bodies).getD (3 * k + 2) 0 = (bodies.getD k default).theta := by
  induction bodies generalizing k with
  | nil => simp at hk
  | cons b rest ih =>
    cases k with
    | zero =>
      refine ⟨rfl, rfl, rfl⟩
    | succ k =>
      have hkr : k < rest.length := by simpa using hk
      have hrec := ih k hkr
      have hflat : flattenPoses (b :: rest) =
          b.x :: b.y :: b.theta :: flattenPoses rest := rfl
      have hbody : ∀ d : Body K, (b :: rest).getD (k + 1) d = rest.getD k d :=
        fun d => List.getD_cons_succ
      refine ⟨?_, ?_, ?_⟩
      · rw [hflat, show 3 * (k + 1) = 3 * k + 1 + 1 + 1 from by ring,
          List.getD_cons_succ, List.getD_cons_succ, List.getD_cons_succ,
          hbody]
        exact hrec.1
      · rw [hflat, show 3 * (k + 1) + 1 = 3 * k + 1 + 1 + 1 + 1 from by ring,
          List.getD_cons_succ, List.getD_cons_succ, List.getD_cons_succ,
          hbody]
        exact hrec.2.1
      · rw [hflat, show 3 * (k + 1) + 2 = 3 * k + 2 + 1 + 1 + 1 from by ring,
          List.getD_cons_succ, List.getD_cons_succ, List.getD_cons_succ,
          hbody]
        exact hrec.2.2

theorem loadInitialIndices_getD (bodies : List (Body K)) (j : ℕ)
    (hj : j < bodies.length) :
    (loadInitialIndices bodies).getD j ("", ⟨0, 0, 0⟩) =
      ((bodies.getD j default).id, ⟨3 * j, 3 * j + 1, 3 * j + 2⟩) := by
  unfold loadInitialIndices
  rw [List.getD_eq_getElem?_getD, List.getElem?_map, List.getElem?_enum,
    List.getElem?_eq_getElem hj]
  rw [getD_eq_getElem _ _ _ hj]
  rfl

theorem loadInitialIndices_keys (bodies : List (Body K)) :
    (loadInitialIndices bodies).map (·.1) = bodies.map (·.id) := by
  unfold loadInitialIndices
  rw [List.map_map]
  have : ((fun p : String × Idx3 => p.1) ∘
      (fun p : ℕ × Body K => (p.2.id, (⟨3 * p.1, 3 * p.1 + 1, 3 * p.1 + 2⟩ : Idx3)))) =
      (fun b : Body K => b.id) ∘ Prod.snd := rfl
  rw [this, ← List.map_map, List.enum_map_snd]

theorem flatMap_congr_mem {α β : Type} (l : List α) (f g : α → List β)
    (h : ∀ a ∈ l, f a = g a) : l.flatMap f = l.flatMap g := by
  induction l with
  | nil => rfl
  | cons a l ih =>
    rw [List.flatMap_cons, List.flatMap_cons, h a (by simp),
      ih (fun a ha => h a (by simp [ha]))]

theorem worldF_congr (cosF sinF : K → K) (rcs : List (RotConstraint K))
    (fcs : List (FixedConstraint K)) (iA : List (String × Idx3)) (x0A xA : List K)
    (iB : List (String × Idx3)) (x0B xB : List K)
    (h : ∀ b ∈ allBodies rcs fcs,
      getBodyPosition iA x0A xA b = getBodyPosition iB x0B xB b) :
    worldF cosF sinF rcs fcs iA x0A xA = worldF cosF sinF rcs fcs iB x0B xB := by
  rw [worldF_eq_blocks, worldF_eq_blocks]
  have hmemA : ∀ rc ∈ rcs, rc.bodyA ∈ allBodies rcs fcs := by
    intro rc hrc
    unfold allBodies
    exact List.mem_append_left _ (List.mem_flatMap.mpr ⟨rc, hrc, by simp⟩)
  have hmemB : ∀ rc ∈ rcs, rc.bodyB ∈ allBodies rcs fcs := by
    intro rc hrc
    unfold allBodies
    exact List.mem_append_left _ (List.mem_flatMap.mpr ⟨rc, hrc, by simp⟩)
  have hmemF : ∀ fc ∈ fcs, fc.body ∈ allBodies rcs fcs := by
    intro fc hfc
    unfold allBodies
    exact List.mem_append_right _ (List.mem_map.mpr ⟨fc, hfc, rfl⟩)
  congr 1
  · unfold rotBlock
    apply flatMap_congr_mem
    intro rc hrc
    unfold rotConstraintF
    rw [h rc.bodyA (hmemA rc hrc), h rc.bodyB (hmemB rc hrc)]
  · unfold fixBlock
    apply flatMap_congr_mem
    intro fc hfc
    unfold fixConstraintF
    rw [h fc.body (hmemF fc hfc)]

theorem upsertBody_key_id (reg : List (String × Body K)) (b : Body K)
    (hreg : ∀ p ∈ reg, p.1 = p.2.id) :
    ∀ p ∈ upsertBody reg b, p.1 = p.2.id := by
  intro p hp
  unfold upsertBody at hp
  by_cases hf : (reg.find? (fun q => q.1 == b.id)).isSome
  · rw [if_pos hf] at hp
    rcases List.mem_map.mp hp with ⟨q, hq, hqp⟩
    by_cases hqb : q.1 == b.id
    · rw [if_pos hqb] at hqp
      rw [← hqp]
      simpa using hqb
    · rw [if_neg hqb] at hqp
      rw [← hqp]
      exact hreg q hq
  · rw [if_neg hf] at hp
    rcases List.mem_append.mp hp with hq | hq
    · exact hreg p hq
    · rw [List.mem_singleton] at hq
      rw [hq]

theorem foldl_upsertBody_key_id (bs : List (Body K)) :
    ∀ reg, (∀ p ∈ reg, p.1 = p.2.id) →
      ∀ p ∈ bs.foldl upsertBody reg, p.1 = p.2.id := by
  induction bs with
  | nil => intro reg hreg; simpa using hreg
  | cons b bs ih =>
    intro reg hreg
    rw [List.foldl_cons]
    exact ih _ (upsertBody_key_id reg b hreg)

/-- Facts World.make establishes on success: the stored constraint lists, a
registry-derived body list whose ids are exactly the registry keys, no
duplicate ids, and every constraint-referenced body id present. -/
theorem world_make_ok_facts (rcs : List (RotConstraint K))
    (fcs : List (FixedConstraint K)) (w : World K)
    (hw : World.make rcs fcs = .ok w) :
    w.rotConstraints = rcs ∧ w.fixConstraints = fcs ∧
    w.bodiesLst = (loadBodies rcs fcs).1.map (·.2) ∧
    (w.bodiesLst.map (·.id)).Nodup ∧
    (∀ b ∈ allBodies rcs fcs, b.id ∈ w.bodiesLst.map (·.id)) := by
  have hw' := hw
  unfold World.make at hw'
  dsimp only at hw'
  by_cases he : ((loadBodies rcs fcs).2 ++
      (if World.dofOf rcs fcs < 0 then
        [overConstrainedMsg (World.dofOf rcs fcs)] else [])).isEmpty
  · rw [if_pos he] at hw'
    have hwts : w = ⟨rcs, fcs, (loadBodies rcs fcs).1,
        (loadBodies rcs fcs).1.map (·.2),
        List.replicate (((loadBodies rcs fcs).1.map (·.2)).length * 3) 0,
        World.dofOf rcs fcs⟩ := by
      injection hw' with h
      exact h.symm
    subst hwts
    have hkeyid : ∀ p ∈ (loadBodies rcs fcs).1, p.1 = p.2.id := by
      rw [loadBodies_registry_eq]
      exact foldl_upsertBody_key_id (allBodies rcs fcs) [] (by simp)
    have hids : ((loadBodies rcs fcs).1.map (·.2)).map (·.id) =
        (loadBodies rcs fcs).1.map (·.1) := by
      rw [List.map_map]
      apply List.map_congr_left
      intro p hp
      exact (hkeyid p hp).symm
    have hkf := keys_foldl_upsertBody (allBodies rcs fcs)
      ([] : List (String × Body K)) (by simp)
    refine ⟨rfl, rfl, rfl, ?_, ?_⟩
    · dsimp only
      rw [hids, loadBodies_registry_eq]
      exact hkf.1
    · intro b hb
      dsimp only
      rw [hids, loadBodies_registry_eq]
      dsimp only
      have : b.id ∈ ((allBodies rcs fcs).map (·.id)).toFinset := by
        rw [List.mem_toFinset]
        exact List.mem_map.mpr ⟨b, hb, rfl⟩
      have h2 : b.id ∈ (((allBodies rcs fcs).foldl upsertBody []).map
          (·.1)).toFinset := by
        rw [hkf.2]
        simpa using this
      rw [List.mem_toFinset] at h2
      exact h2
  · rw [if_neg he] at hw'
    exact absurd hw' (by simp)

theorem flattenPoses_length (bodies : List (Body K)) :
    (flattenPoses bodies).length = 3 * bodies.length := by
  induction bodies with
  | nil => rfl
  | cons b rest ih =>
    unfold flattenPoses at ih ⊢
    rw [List.flatMap_cons, List.length_append, ih]
    simp
    ring

/-- The central agreement fact: after a solve, reading a referenced body
through the solver-side residual closure (rearranged indices, rearranged x0,
solution vector) gives exactly the pose of the written-back body. -/
theorem solved_pose_agreement (bodies : List (Body K)) (sel : List ℕ)
    (sol : List K) (hnd : (bodies.map (·.id)).Nodup) (bref : Body K)
    (hmem : bref.id ∈ bodies.map (·.id)) :
    getBodyPosition (loadIndicesDictAndGetX0 bodies sel).indices
        (loadIndicesDictAndGetX0 bodies sel).x0 sol bref =
      getBodyPosition
        (loadInitialIndices (bodies.map
          (setBodyPosition (loadIndicesDictAndGetX0 bodies sel).indices sol)))
        (flattenPoses (bodies.map
          (setBodyPosition (loadIndicesDictAndGetX0 bodies sel).indices sol)))
        (flattenPoses (bodies.map
          (setBodyPosition (loadIndicesDictAndGetX0 bodies sel).indices sol)))
        bref := by
  set la := loadIndicesDictAndGetX0 bodies sel with hla
  set bodies2 := bodies.map (setBodyPosition la.indices sol) with hb2
  obtain ⟨b0, hb0mem, hb0id⟩ := List.mem_map.mp hmem
  obtain ⟨j, hj, hbj⟩ := List.mem_iff_getElem.mp hb0mem
  have hgetj : bodies.getD j default = b0 := by
    rw [getD_eq_getElem _ _ _ hj, hbj]
  obtain ⟨hkeys, hsum, hciB, hx0len, hslots⟩ := loadIndicesDict_inv bodies sel
  obtain ⟨t, hentry, _, _, _, hvx, hvy, hvt⟩ := hslots j hj
  have hilen : la.indices.length = bodies.length := by
    have := congrArg List.length hkeys
    simpa using this
  have hndk : (la.indices.map (·.1)).Nodup := by
    rw [hkeys]; exact hnd
  have hlookA : dictLookup la.indices bref.id = some t := by
    have hdl := dictLookup_getD la.indices ("", ⟨0, 0, 0⟩) j hndk (by omega)
    rw [hentry] at hdl
    rw [hgetj, hb0id] at hdl
    exact hdl
  have hb2len : bodies2.length = bodies.length := by
    rw [hb2, List.length_map]
  have hb2ids : bodies2.map (·.id) = bodies.map (·.id) := by
    rw [hb2, List.map_map]
    rfl
  have hb2j : bodies2.getD j default = setBodyPosition la.indices sol
      (bodies.getD j default) := by
    rw [List.getD_eq_getElem?_getD, List.getD_eq_getElem?_getD, hb2,
      List.getElem?_map, List.getElem?_eq_getElem hj]
    rfl
  have hndk2 : ((loadInitialIndices bodies2).map (·.1)).Nodup := by
    rw [loadInitialIndices_keys, hb2ids]
    exact hnd
  have hiilen : (loadInitialIndices bodies2).length = bodies2.length := by
    have := congrArg List.length (loadInitialIndices_keys bodies2)
    simpa using this
  have hlookB : dictLookup (loadInitialIndices bodies2) bref.id =
      some ⟨3 * j, 3 * j + 1, 3 * j + 2⟩ := by
    have hdl := dictLookup_getD (loadInitialIndices bodies2) ("", ⟨0, 0, 0⟩) j
      hndk2 (by omega)
    rw [loadInitialIndices_getD bodies2 j (by omega)] at hdl
    have hid2 : (bodies2.getD j default).id = bref.id := by
      rw [hb2j]
      show (bodies.getD j default).id = bref.id
      rw [hgetj, hb0id]
    rw [hid2] at hdl
    exact hdl
  have hflen : (flattenPoses bodies2).length = 3 * bodies2.length :=
    flattenPoses_length bodies2
  obtain ⟨hf1, hf2, hf3⟩ := flattenPoses_getD bodies2 j (by omega)
  unfold getBodyPosition
  rw [hlookA, hlookB]
  dsimp only [Option.getD_some]
  have hc1 : ¬ ((flattenPoses bodies2).length ≤ 3 * j) := by omega
  have hc2 : ¬ ((flattenPoses bodies2).length ≤ 3 * j + 1) := by omega
  have hc3 : ¬ ((flattenPoses bodies2).length ≤ 3 * j + 2) := by omega
  rw [if_neg hc1, if_neg hc2, if_neg hc3]
  rw [hf1, hf2, hf3, hb2j]
  unfold setBodyPosition
  have hlookA' : dictLookup la.indices (bodies.getD j default).id = some t := by
    rw [hgetj, hb0id]
    exact hlookA
  rw [hlookA']
  dsimp only [Option.getD_some]
  simp only [BodyPosition.mk.injEq]
  refine ⟨?_, ?_, ?_⟩
  · by_cases hcase : t.x < sol.length
    · rw [if_neg (by omega), if_pos hcase]
    · rw [if_pos (by omega), if_neg hcase, hvx]
  · by_cases hcase : t.y < sol.length
    · rw [if_neg (by omega), if_pos hcase]
    · rw [if_pos (by omega), if_neg hcase, hvy]
  · by_cases hcase : t.theta < sol.length
    · rw [if_neg (by omega), if_pos hcase]
    · rw [if_pos (by omega), if_neg hcase, hvt]

theorem solveDetLoop_success_post (jac : (List K → List K) → List K → Mat K)
    (minv : Mat K → Option (Mat K)) (elapsed : ℕ → K) (cfg : SolverCfg K)
    (f : List K → List K) :
    ∀ (fuel : ℕ) (x : List K) (error : Option K) (iter : ℕ)
      (sol : SolverSolution K),
      (∀ e, error = some e → e = maxAbs (f x)) →
      solveDetLoop jac minv elapsed cfg f fuel x error iter = .ok (some sol) →
      sol.solved = true → maxAbs (f sol.x) < cfg.stopError := by
  intro fuel
  induction fuel with
  | zero =>
    intro x error iter sol _ h _
    simp [solveDetLoop] at h
  | succ fuel ih =>
    intro x error iter sol hinv h hs
    rw [solveDetLoop] at h
    by_cases hg : errGE error cfg.stopError = true
    · rw [if_pos hg] at h
      by_cases hmi : cfg.maxIterations ≤ iter
      · rw [if_pos hmi] at h
        injection h with h1
        injection h1 with h2
        rw [← h2] at hs
        exact absurd hs (by simp [SolverSolution.maxIterReached])
      · rw [if_neg hmi] at h
        by_cases hto : cfg.timeOut ≤ elapsed iter
        · rw [if_pos hto] at h
          injection h with h1
          injection h1 with h2
          rw [← h2] at hs
          exact absurd hs (by simp [SolverSolution.timeOut])
        · rw [if_neg hto] at h
          dsimp only at h
          cases hminv : minv (jac f x) with
          | none =>
            rw [hminv] at h
            exact absurd h (by simp)
          | some invJ =>
            rw [hminv] at h
            exact ih _ _ _ sol
              (fun e he => by
                rw [Option.some.injEq] at he
                rw [← he]) h hs
    · rw [if_neg hg] at h
      injection h with h1
      injection h1 with h2
      cases error with
      | none => exact absurd hg (by simp [errGE])
      | some e =>
        have he : e = maxAbs (f x) := hinv e rfl
        have hlt : ¬ cfg.stopError ≤ e := by
          unfold errGE at hg
          simpa using hg
        rw [← h2]
        show maxAbs (f x) < cfg.stopError
        rw [← he]
        exact lt_of_not_le hlt

theorem solveUnderLoop_success_post (jac : (List K → List K) → List K → Mat K)
    (minv : Mat K → Option (Mat K)) (choice : ℕ → ℕ) (elapsed : ℕ → K)
    (cfg : SolverCfg K) (f : List K → List K) (m : ℕ) :
    ∀ (fuel : ℕ) (x : List K) (selIndices : List ℕ) (error : Option K)
      (iter pass : ℕ) (sol : SolverSolution K),
      (∀ e, error = some e → e = maxAbs (f x)) →
      solveUnderLoop jac minv choice elapsed cfg f m fuel x selIndices error
        iter pass = .ok (some sol) →
      sol.solved = true → maxAbs (f sol.x) < cfg.stopError := by
  intro fuel
  induction fuel with
  | zero =>
    intro x selIndices error iter pass sol _ h _
    simp [solveUnderLoop] at h
  | succ fuel ih =>
    intro x selIndices error iter pass sol hinv h hs
    rw [solveUnderLoop] at h
    by_cases hg : errGE error cfg.stopError = true
    · rw [if_pos hg] at h
      cases hsel : (if iter % 10 = 0 then selectIndicesS jac choice f x
          else .ok selIndices) with
      | error e =>
        rw [hsel] at h
        exact absurd h (by simp)
      | ok sel =>
        rw [hsel] at h
        dsimp only at h
        cases hminv : minv (subMatCols (jac f x) m sel) with
        | none =>
          rw [hminv] at h
          cases hsel2 : selectIndicesS jac choice f x with
          | error e =>
            rw [hsel2] at h
            exact absurd h (by simp)
          | ok sel2 =>
            rw [hsel2] at h
            exact ih x sel2 error iter (pass + 1) sol hinv h hs
        | some invJ =>
          rw [hminv] at h
          exact ih _ sel _ (iter + 1) (pass + 1) sol
            (fun e he => by
              rw [Option.some.injEq] at he
              rw [← he]) h hs
    · rw [if_neg hg] at h
      injection h with h1
      injection h1 with h2
      cases error with
      | none => exact absurd hg (by simp [errGE])
      | some e =>
        have he : e = maxAbs (f x) := hinv e rfl
        have hlt : ¬ cfg.stopError ≤ e := by
          unfold errGE at hg
          simpa using hg
        rw [← h2]
        show maxAbs (f x) < cfg.stopError
        rw [← he]
        exact lt_of_not_le hlt

/-- Success postcondition of the Solver: a returned Solution with the solved
flag set has max(abs(f(x))) strictly below stopError, whichever dispatch path
produced it. -/
theorem solver_solve_success_post (jac : (List K → List K) → List K → Mat K)
    (minv : Mat K → Option (Mat K)) (choice : ℕ → ℕ) (elapsed : ℕ → K)
    (cfg : SolverCfg K) (f : List K → List K) (x : List K) (fuel : ℕ)
    (sol : SolverSolution K)
    (h : Solver.solve jac minv choice elapsed cfg f x fuel = .ok (some sol))
    (hs : sol.solved = true) : maxAbs (f sol.x) < cfg.stopError := by
  unfold Solver.solve at h
  by_cases hnm : x.length = (f x).length
  · rw [if_pos hnm] at h
    unfold Solver.solveDetermined at h
    by_cases hmn : (f x).length ≠ x.length
    · rw [if_pos hmn] at h
      exact absurd h (by simp)
    · rw [if_neg hmn] at h
      exact solveDetLoop_success_post jac minv elapsed cfg f fuel x none 0 sol
        (fun e he => by cases he) h hs
  · rw [if_neg hnm] at h
    by_cases hmln : (f x).length < x.length
    · rw [if_pos hmln] at h
      unfold Solver.solveUnderdetermined at h
      by_cases hnlm : x.length < (f x).length
      · rw [if_pos hnlm] at h
        exact absurd h (by simp)
      · rw [if_neg hnlm] at h
        exact solveUnderLoop_success_post jac minv choice elapsed cfg f
          (f x).length fuel x [] none 0 0 sol (fun e he => by cases he) h hs
    · rw [if_neg hmln] at h
      exact absurd h (by simp)

/-- The residual function evaluated at the live poses of a body list: the
initial 3-slot-per-body assignment together with the flattened pose vector,
so every read comes from the poses themselves. -/
def residualAtBodies (cosF sinF : K → K) (rcs : List (RotConstraint K))
    (fcs : List (FixedConstraint K)) (bodies : List (Body K)) : List K :=
  worldF cosF sinF rcs fcs (loadInitialIndices bodies) (flattenPoses bodies)
    (flattenPoses bodies)

/-- C3: when World.solve (with the repository Solver) returns normally, the
residual function re-evaluated at the bodies' resulting poses has
max(abs(residual)) strictly below stopError. -/
theorem world_solve_success_residual_below_stop
    (cosF sinF : K → K) (jac : (List K → List K) → List K → Mat K)
    (minv : Mat K → Option (Mat K)) (choice : ℕ → ℕ) (elapsed : ℕ → K)
    (cfg : SolverCfg K) (fuel : ℕ) (rcs : List (RotConstraint K))
    (fcs : List (FixedConstraint K)) (w : World K) (bodies2 : List (Body K))
    (hw : World.make rcs fcs = .ok w)
    (hrun : worldSolve cosF sinF jac
      (fun f x => Solver.solve jac minv choice elapsed cfg f x fuel) w =
      some (.ok (), bodies2)) :
    maxAbs (residualAtBodies cosF sinF rcs fcs bodies2) < cfg.stopError := by
  obtain ⟨hrc, hfc, hblst, hndids, hcompl⟩ := world_make_ok_facts rcs fcs w hw
  unfold worldSolve at hrun
  cases hpre : worldSolvePre cosF sinF jac w with
  | error e =>
    rw [hpre] at hrun
    exact absurd hrun (by simp)
  | ok pre =>
    rw [hpre] at hrun
    dsimp only at hrun
    cases hslv : Solver.solve jac minv choice elapsed cfg
        (worldF cosF sinF w.rotConstraints w.fixConstraints pre.indices pre.x0)
        pre.solverX fuel with
    | error e =>
      rw [hslv] at hrun
      exact absurd hrun (by simp)
    | ok osol =>
      rw [hslv] at hrun
      cases osol with
      | none => exact absurd hrun (by simp)
      | some sol =>
        dsimp only at hrun
        by_cases hsolved : sol.solved = true
        · rw [if_pos hsolved] at hrun
          have hb2 : bodies2 = w.bodiesLst.map (setBodyPosition pre.indices
              sol.x) := by
            rw [Option.some.injEq, Prod.mk.injEq] at hrun
            exact hrun.2.symm
          have hpost := solver_solve_success_post jac minv choice elapsed cfg
            (worldF cosF sinF w.rotConstraints w.fixConstraints pre.indices
              pre.x0) pre.solverX fuel sol hslv hsolved
          unfold worldSolvePre at hpre
          dsimp only at hpre
          cases hselq : selectSolverVariableIndices (jac (worldF cosF sinF
              w.rotConstraints w.fixConstraints
              (loadInitialIndices w.bodiesLst) (loadInitialX0 w.bodiesLst))
              (loadInitialX0 w.bodiesLst)) with
          | error e =>
            rw [hselq] at hpre
            exact absurd hpre (by simp)
          | ok sel =>
            rw [hselq] at hpre
            dsimp only at hpre
            rw [Except.ok.injEq] at hpre
            have hidx : pre.indices =
                (loadIndicesDictAndGetX0 w.bodiesLst sel).indices := by
              rw [← hpre]
            have hx0 : pre.x0 =
                (loadIndicesDictAndGetX0 w.bodiesLst sel).x0 := by
              rw [← hpre]
            have hagree : worldF cosF sinF rcs fcs pre.indices pre.x0 sol.x =
                residualAtBodies cosF sinF rcs fcs bodies2 := by
              unfold residualAtBodies
              rw [hidx, hx0, hb2, hidx]
              apply worldF_congr
              intro b hbmem
              exact solved_pose_agreement w.bodiesLst sel sol.x hndids b
                (hcompl b hbmem)
            rw [← hagree]
            rw [hrc, hfc] at hpost
            exact hpost
        · rw [if_neg hsolved] at hrun
          rw [Option.some.injEq, Prod.mk.injEq] at hrun
          exact absurd hrun.1 (by simp)

theorem worldFix1_residual_at_zero : worldF (fun t : ℚ => t) (fun t : ℚ => t)
    [] [FixedConstraint.make bodyA0] [("a", ⟨0, 1, 2⟩)] [0, 0, 0] [0, 0, 0] =
    [0, 0, 0] := by
  norm_num [worldF, writeSeq, vset, fixConstraintF, getBodyPosition,
    dictLookup, FixedConstraint.make, FixedConstraint.f, bodyA0]
  decide

theorem worldFix1_detLoop_eval : ∀ fuel : ℕ,
    solveDetLoop jacEye (fun _ => some [[1, 0, 0], [0, 1, 0], [0, 0, 1]])
      (fun _ => 0) ⟨1, 1000, 1000000, 1⟩
      (worldF (fun t : ℚ => t) (fun t : ℚ => t) [] [FixedConstraint.make bodyA0]
        [("a", ⟨0, 1, 2⟩)] [0, 0, 0])
      ((fuel + 1) + 1) [0, 0, 0] none 0 =
      .ok (some (SolverSolution.success [0, 0, 0])) := by
  intro fuel
  rw [solveDetLoop]
  rw [if_pos (by rfl)]
  rw [if_neg (by norm_num), if_neg (by norm_num)]
  dsimp only
  have hb : (worldF (fun t : ℚ => t) (fun t : ℚ => t) []
      [FixedConstraint.make bodyA0] [("a", ⟨0, 1, 2⟩)] [0, 0, 0]
      [0, 0, 0]).map (fun v => v * (-1)) = [0, 0, 0] := by
    rw [worldFix1_residual_at_zero]
    norm_num
  rw [hb]
  have hstep : vecAdd [0, 0, 0]
      (matVecMul [[1, 0, 0], [0, 1, 0], [0, 0, 1]] [(0 : ℚ), 0, 0]) =
      [0, 0, 0] := by
    norm_num [vecAdd, matVecMul]
  rw [hstep]
  rw [worldFix1_residual_at_zero]
  have herr : maxAbs ([0, 0, 0] : List ℚ) = 0 := by
    norm_num [maxAbs]
  rw [herr]
  rw [solveDetLoop]
  rw [if_neg (by norm_num [errGE])]

theorem worldFix1_run :
    worldSolve (fun t : ℚ => t) (fun t : ℚ => t) jacEye
      (fun f x => Solver.solve jacEye
        (fun _ => some [[1, 0, 0], [0, 1, 0], [0, 0, 1]])
        (fun n => n) (fun _ => 0) ⟨1, 1000, 1000000, 1⟩ f x 2) worldFix1 =
      some (.ok (), [⟨"a", 0, 0, 0⟩]) := by
  unfold worldSolve
  rw [worldFix1_pre]
  dsimp only
  rw [show worldFix1.rotConstraints = [] from rfl,
    show worldFix1.fixConstraints = [FixedConstraint.make bodyA0] from rfl]
  have hsolve : Solver.solve jacEye
      (fun _ => some [[1, 0, 0], [0, 1, 0], [0, 0, 1]])
      (fun n => n) (fun _ => 0) ⟨1, 1000, 1000000, 1⟩
      (worldF (fun t : ℚ => t) (fun t : ℚ => t) []
        [FixedConstraint.make bodyA0] [("a", ⟨0, 1, 2⟩)] [0, 0, 0])
      [0, 0, 0] 2 = .ok (some (SolverSolution.success [0, 0, 0])) := by
    unfold Solver.solve
    rw [worldFix1_residual_at_zero]
    rw [if_pos (by norm_num)]
    unfold Solver.solveDetermined
    rw [worldFix1_residual_at_zero]
    rw [if_neg (by norm_num)]
    exact worldFix1_detLoop_eval 0
  rw [hsolve]
  dsimp only
  have hs : (SolverSolution.success ([0, 0, 0] : List ℚ)).solved = true := rfl
  rw [if_pos hs]
  rw [show worldFix1.bodiesLst = [bodyA0] from rfl]
  norm_num [setBodyPosition, dictLookup, bodyA0, SolverSolution.success]

/-- C3 witness: the one-body pinned world, solved with the exact identity
Jacobian, converges at once; the claim theorem then yields that the residual
re-evaluated at the resulting pose is below the configured stopError. -/
theorem world_solve_success_residual_witness :
    maxAbs (residualAtBodies (fun t : ℚ => t) (fun t : ℚ => t) []
      [FixedConstraint.make bodyA0] [⟨"a", 0, 0, 0⟩]) < 1 :=
  world_solve_success_residual_below_stop (fun t => t) (fun t => t) jacEye
    (fun _ => some [[1, 0, 0], [0, 1, 0], [0, 0, 1]]) (fun n => n) (fun _ => 0)
    ⟨1, 1000, 1000000, 1⟩ 2 [] [FixedConstraint.make bodyA0] worldFix1
    [⟨"a", 0, 0, 0⟩] worldFix1_make worldFix1_run

end CSolver
